import Mathlib

/-!
Verification of the AI task testing platform's core services against their
specification.  The Python services under `app/services/` are shallowly
embedded below: text is `List Char` (or `String`), Python floats are modelled
as `ℚ`, provider/network calls and random draws are injected as parameters,
and code that raises is modelled with `Option`/`Except`.
-/

/-! ## Shared text utilities -/

/-- Model of Python `str.lower` on a single character (ASCII case mapping,
which covers every string appearing in the development). -/
def lowerChar (c : Char) : Char :=
  if 65 ≤ c.toNat ∧ c.toNat ≤ 90 then Char.ofNat (c.toNat + 32) else c

/-- Model of Python `str.lower`. -/
def lowerStr (s : List Char) : List Char := s.map lowerChar

/-- Index of the first occurrence of `pat` as a contiguous run inside `s`
(`none` when there is none); models Python `str.find` / the `in` operator. -/
def findSub (pat s : List Char) : Option Nat :=
  (List.range (s.length + 1)).find? (fun i => ((s.drop i).take pat.length) = pat)

/-- Model of Python `pat in s` (contiguous substring test). -/
def occursIn (pat s : List Char) : Bool := (findSub pat s).isSome

/-- Model of Python `str.split()` with no separator: split on runs of
whitespace, dropping empty pieces. -/
def splitWs (s : List Char) : List (List Char) :=
  ((s.splitOnP (fun c => c = ' ' ∨ c = '\t' ∨ c = '\n' ∨ c = '\r')).filter
    (fun w => w ≠ []))

/-- Clamp used by the services: Python `min(hi, max(lo, x))`. -/
def pyClamp (lo hi x : ℚ) : ℚ := min hi (max lo x)

/-- Model of Python `s.startswith(p)`. -/
def startsWithL (s p : String) : Bool := s.data.take p.data.length = p.data

/-! ## Backend selection (`classification_service.classify`,
`agent_service.execute_task`)

The services select an execution strategy by testing string prefixes of the
model name, in source order; selection itself is a total function and never
raises. -/

/-- The strategies the classification service dispatches to. -/
inductive ClassificationBackend where
  | openai | anthropic | huggingface | mock
deriving DecidableEq, Repr

/-- Embedding of the dispatch in `ClassificationService.classify`. -/
def classify_select (model_name : String) : ClassificationBackend :=
  if startsWithL model_name "gpt-" then .openai
  else if startsWithL model_name "claude-" then .anthropic
  else if startsWithL model_name "huggingface/" then .huggingface
  else .mock

/-- The strategies the agent service dispatches to. -/
inductive AgentBackend where
  | openai | anthropic | mock
deriving DecidableEq, Repr

/-- Embedding of the dispatch in `AgentService.execute_task`. -/
def execute_task_select (model_name : String) : AgentBackend :=
  if startsWithL model_name "gpt-" then .openai
  else if startsWithL model_name "claude-" then .anthropic
  else .mock

/-- Output shape of the classification service. -/
structure ClassificationOutput where
  predicted_label : String
  confidence : ℚ
  probabilities : Option (List (String × ℚ))
deriving DecidableEq, Repr

/-- Embedding of `ClassificationService._classify_mock`.  The two random
draws (`random.choice` over the candidate labels, `random.uniform(0.6,
0.95)`) are injected as the index `rchoice` and the rational `runif`.
Python tests `if labels:`, which is false both for `None` and for an empty
list, so `labels = some []` draws from the default sentiment pool; the
`probabilities` dict is always passed (it stays empty when `labels` is
falsy). -/
def classify_mock (labels : Option (List String)) (rchoice : Nat) (runif : ℚ) :
    ClassificationOutput :=
  let defaults : List String := ["positive", "negative", "neutral"]
  let pool := match labels with | some (l :: ls) => l :: ls | _ => defaults
  let predicted := pool.getD (rchoice % pool.length) "positive"
  let probs : List (String × ℚ) :=
    match labels with
    | some (l :: ls) =>
        (l :: ls).map (fun x =>
          (x, if x = predicted then runif else (1 - runif) / ((l :: ls).length - 1)))
    | _ => []
  ⟨predicted, runif, some probs⟩

/-- Embedding of `ClassificationService._classify_huggingface`: the source
returns `await self._classify_mock(text, model_name, labels)`. -/
def classify_huggingface (labels : Option (List String)) (rchoice : Nat)
    (runif : ℚ) : ClassificationOutput :=
  classify_mock labels rchoice runif

/-! ## Python JSON values

Everything `json.loads` can return flows through the agent loop, so the
value type covers all of JSON: strings, numbers, booleans, `null`, arrays
and objects (mutual inductives stand in for the nested list fields).  A
number keeps its source token: the loop and the tools only ever test a
number's shape or format it into a message, and `str()` of a Python float
normalises the token (`1e3` prints as `1000.0`) — that normalisation is not
reproduced and no claim depends on such message text.  A parsed object keeps
its member list as written; lookups follow Python dict semantics, where the
last binding of a repeated key wins. -/

mutual

/-- Values `json.loads` produces. -/
inductive JVal where
  | str (s : String)
  | num (tok : String)
  | jbool (b : Bool)
  | null
  | arr (elems : JArr)
  | obj (fields : JObj)
deriving DecidableEq

/-- Elements of a JSON array. -/
inductive JArr where
  | nil
  | cons (v : JVal) (rest : JArr)
deriving DecidableEq

/-- Members of a JSON object, in source order, repeats kept. -/
inductive JObj where
  | nil
  | cons (k : String) (v : JVal) (rest : JObj)
deriving DecidableEq

end

/-- Python `dict.get`: the value of the LAST binding of `key` (building a
dict from repeated keys keeps the last value). -/
def JObj.get : JObj → String → Option JVal
  | .nil, _ => none
  | .cons k v rest, key =>
    match JObj.get rest key with
    | some w => some w
    | none => if k = key then some v else none

/-- Keys of an object in source order (repeats kept). -/
def JObj.keyList : JObj → List String
  | .nil => []
  | .cons k _ rest => k :: rest.keyList

/-- Build an object from a list of members. -/
def JObj.ofList : List (String × JVal) → JObj
  | [] => .nil
  | (k, v) :: rest => .cons k v (JObj.ofList rest)

/-- Elements of an array as a list. -/
def JArr.toList : JArr → List JVal
  | .nil => []
  | .cons v rest => v :: rest.toList

/-- Shorthand for an object value built from a member list. -/
def jobj (l : List (String × JVal)) : JVal := .obj (JObj.ofList l)

/-- Values whose Python decoding is unhashable (`list`/`dict`): hashing one,
e.g. by a dict membership test, raises `TypeError`. -/
def JVal.unhashable : JVal → Bool
  | .arr _ => true
  | .obj _ => true
  | _ => false

mutual

/-- Python `repr()` of a decoded JSON value (`str` and `repr` agree on
everything but top-level strings).  String quoting/escaping corners and
float normalisation are not reproduced; these texts only ever land inside
mock result messages and no claim depends on them. -/
def pyRepr : JVal → String
  | .str s => "'" ++ s ++ "'"
  | .num tok => tok
  | .jbool b => if b then "True" else "False"
  | .null => "None"
  | .arr xs => "[" ++ pyReprElems xs ++ "]"
  | .obj fs => "\x7b" ++ pyReprFields fs ++ "\x7d"

/-- Comma-separated `repr`s of array elements. -/
def pyReprElems : JArr → String
  | .nil => ""
  | .cons v .nil => pyRepr v
  | .cons v (.cons w rest) => pyRepr v ++ ", " ++ pyReprElems (.cons w rest)

/-- Comma-separated `repr`s of object members. -/
def pyReprFields : JObj → String
  | .nil => ""
  | .cons k v .nil => "'" ++ k ++ "': " ++ pyRepr v
  | .cons k v (.cons k2 w rest) =>
    "'" ++ k ++ "': " ++ pyRepr v ++ ", " ++ pyReprFields (.cons k2 w rest)

end

/-- Python `str()` of a decoded JSON value, as an f-string renders it. -/
def pyStr : JVal → String
  | .str s => s
  | v => pyRepr v

/-! ## Agent confidence (`AgentService._calculate_confidence`) -/

deriving instance DecidableEq for Except

/-- One entry of `actions_taken`: the Python dict carries
`status ∈ {success, failed}` together with a result or error string, which we
model with `Except`; `args` is whatever value sat under the call's `"args"`
key (an empty object when absent). -/
structure ActionRecord where
  tool : String
  args : JVal
  outcome : Except String String
deriving DecidableEq

/-- `action.get("status") == "success"` for a record. -/
def ActionRecord.isSuccess (r : ActionRecord) : Bool :=
  match r.outcome with
  | .ok _ => true
  | .error _ => false

/-- Embedding of `AgentService._calculate_confidence`. -/
def calculate_confidence (result : String) (actions_taken : List ActionRecord) : ℚ :=
  let base : ℚ := 7/10
  let base :=
    if actions_taken ≠ [] then
      let successful : ℚ := (actions_taken.filter (·.isSuccess)).length
      let total : ℚ := actions_taken.length
      base + (successful / total - 1/2) * (3/10)
    else base
  let base := if result.length > 100 then base + 1/10 else base
  min (95/100) (max (1/10) base)

/-- The confidence formula as the specification words it (§4.3): base 0.7,
adjusted by ±0.3 scaled by the fraction of successful tool calls only when at
least one call was attempted, plus 0.1 when the final result exceeds 100
length units, clamped to [0.1, 0.95]. -/
def specAgentConfidence (result : String) (actions_taken : List ActionRecord) : ℚ :=
  let frac : ℚ :=
    ((actions_taken.filter (·.isSuccess)).length : ℚ) / (actions_taken.length : ℚ)
  pyClamp (1/10) (95/100)
    ((7/10) + (if actions_taken ≠ [] then (frac - 1/2) * (3/10) else 0) +
      (if result.length > 100 then 1/10 else 0))

/-! ## Dialogue evaluation (`DialogueService.evaluate`) -/

/-- Output shape of the dialogue service. -/
structure DialogueOutput where
  response : String
  confidence : ℚ
  context_used : Bool
deriving DecidableEq, Repr

/-- The metrics mapping built by `DialogueService.evaluate`. -/
structure DialogueMetrics where
  relevance_score : ℚ
  length_diff : Nat
  lengthQuotient : ℚ
  confidence_diff : ℚ
  context_consistency : ℚ
  predicted_length : Nat
  expected_length : Nat
  predicted_confidence : ℚ
  expected_confidence : ℚ
deriving DecidableEq, Repr

/-! ## `difflib.SequenceMatcher` (the Text Similarity Utility)

Every service's `_calculate_similarity` scores text with
`difflib.SequenceMatcher(None, x, y).ratio()`.  We embed the CPython
algorithm for `isjunk = None` and `autojunk = True`: with no junk predicate
the junk set `bjunk` is empty, so the two junk-extension loops of
`find_longest_match` never fire and are omitted, while the two non-junk
extension loops extend over every equal character pair.  `ratio` is
`2 * M / (len(a) + len(b))` where `M` sums the sizes of the matching blocks;
the queue-driven `get_matching_blocks` just assembles the blocks that the
recursion below discovers (sorting and merging adjacent blocks never changes
the total size), so we compute `M` by direct recursion.  Rationals stand in
for Python floats. -/

namespace SeqMatcher

/-- Positions of `c` in `b`, ascending: the `b2j` entry for `c` before the
autojunk purge. -/
def occIdx (b : List Char) (c : Char) : List Nat :=
  (List.range b.length).filter (fun j => b.getD j ' ' = c)

/-- The autojunk rule of `SequenceMatcher.__chain_b`: when `len(b) >= 200`,
characters occurring more than `len(b) // 100 + 1` times are "popular" and
their entries are purged from `b2j`. -/
def popularChar (b : List Char) (c : Char) : Bool :=
  decide (b.length ≥ 200 ∧ (occIdx b c).length > b.length / 100 + 1)

/-- `b2j` after the autojunk purge. -/
def b2j (b : List Char) (c : Char) : List Nat :=
  if popularChar b c then [] else occIdx b c

/-- Loop state of `find_longest_match`: the current row's dict `j2len`
(total function, absent keys read as 0, matching `j2len.get(j-1, 0)`) and
the best block found so far. -/
structure FlmState where
  j2len : Nat → Nat
  besti : Nat
  bestj : Nat
  bestsize : Nat

/-- One iteration of the inner `for j in b2j[a[i]]` loop of
`find_longest_match`.  `old` is the previous row's dict (the Python variable
`j2len` while `newj2len` is being built), `st.j2len` the dict under
construction.  `k = j2len.get(j-1, 0) + 1`; on `k > bestsize` the best block
becomes `(i-k+1, j-k+1, k)` (truncated subtraction is exact here because a
backward match of length `k` ending at `(i, j)` forces `k ≤ i+1` and
`k ≤ j+1`). -/
def innerStep (old : Nat → Nat) (i : Nat) (st : FlmState) (j : Nat) : FlmState :=
  let k := (if j = 0 then 0 else old (j - 1)) + 1
  let nw : Nat → Nat := fun x => if x = j then k else st.j2len x
  if k > st.bestsize then ⟨nw, i + 1 - k, j + 1 - k, k⟩
  else ⟨nw, st.besti, st.bestj, st.bestsize⟩

/-- One iteration of the outer `for i in range(alo, ahi)` loop: start a fresh
`newj2len`, run the inner loop over the in-window positions of `a[i]` in `b`
(the `j < blo` continue / `j >= bhi` break on an ascending list is a filter
to the window), then adopt the new dict. -/
def rowStep (a b : List Char) (blo bhi : Nat) (st : FlmState) (i : Nat) : FlmState :=
  let js := (b2j b (a.getD i ' ')).filter (fun j => decide (blo ≤ j ∧ j < bhi))
  js.foldl (innerStep st.j2len i) ⟨fun _ => 0, st.besti, st.bestj, st.bestsize⟩

/-- The dynamic-programming part of `find_longest_match`, starting from
`besti, bestj, bestsize = alo, blo, 0`. -/
def flmLoop (a b : List Char) (alo ahi blo bhi : Nat) : FlmState :=
  (List.range' alo (ahi - alo)).foldl (rowStep a b blo bhi) ⟨fun _ => 0, alo, blo, 0⟩

/-- The leftward extension loop of `find_longest_match` (with an empty junk
set it extends over every equal pair): while `besti > alo`, `bestj > blo`
and `a[besti-1] == b[bestj-1]`, move the block start left and grow it.
Structural recursion on `besti`, which the loop strictly decreases; at
`besti = 0` the guard is false and the state is returned unchanged, exactly
as the `while` would. -/
def extLeft (a b : List Char) (alo blo : Nat) : Nat → Nat → Nat → Nat × Nat × Nat
  | 0, bestj, bestsize => (0, bestj, bestsize)
  | besti + 1, bestj, bestsize =>
    if alo < besti + 1 ∧ blo < bestj ∧
        a.getD besti ' ' = b.getD (bestj - 1) ' ' then
      extLeft a b alo blo besti (bestj - 1) (bestsize + 1)
    else (besti + 1, bestj, bestsize)

/-- The rightward extension loop of `find_longest_match`: while
`besti+bestsize < ahi`, `bestj+bestsize < bhi` and the next characters agree,
grow the block.  The loop runs at most `ahi - (besti + bestsize)` times, and
`findLongestMatch` passes exactly that count as the structural fuel: the
fuel reaches 0 only when `besti + bestsize = ahi`, where the guard is false
anyway. -/
def extRight (a b : List Char) (ahi bhi besti bestj : Nat) : Nat → Nat → Nat
  | 0, bestsize => bestsize
  | fuel + 1, bestsize =>
    if besti + bestsize < ahi ∧ bestj + bestsize < bhi ∧
        a.getD (besti + bestsize) ' ' = b.getD (bestj + bestsize) ' ' then
      extRight a b ahi bhi besti bestj fuel (bestsize + 1)
    else bestsize

/-- `find_longest_match(alo, ahi, blo, bhi)`. -/
def findLongestMatch (a b : List Char) (alo ahi blo bhi : Nat) : Nat × Nat × Nat :=
  let st := flmLoop a b alo ahi blo bhi
  let p := extLeft a b alo blo st.besti st.bestj st.bestsize
  (p.1, p.2.1, extRight a b ahi bhi p.1 p.2.1 (ahi - (p.1 + p.2.2)) p.2.2)

/-- Total size of the matching blocks found in the window: the recursion of
`get_matching_blocks` (find the longest match, recurse on both sides).  The
fuel argument only serves termination; `len(a) + len(b) + 1` always
suffices. -/
def matchTotal (a b : List Char) : Nat → Nat → Nat → Nat → Nat → Nat
  | 0, _, _, _, _ => 0
  | fuel + 1, alo, ahi, blo, bhi =>
    match findLongestMatch a b alo ahi blo bhi with
    | (i, j, k) =>
      if k = 0 then 0
      else k + matchTotal a b fuel alo i blo j + matchTotal a b fuel (i + k) ahi (j + k) bhi

/-- `SequenceMatcher.ratio()` as a rational (Python: `2.0 * M / (la + lb)`;
the services never invoke it on two empty strings, where Python would raise
`ZeroDivisionError` and the rational division yields 0). -/
def ratioQ (a b : List Char) : ℚ :=
  2 * (matchTotal a b (a.length + b.length + 1) 0 a.length 0 b.length : ℚ) /
    ((a.length : ℚ) + (b.length : ℚ))

end SeqMatcher

/-- `DialogueService._calculate_similarity`, identical in
`RAGService._calculate_similarity` and `AgentService._calculate_similarity`:
1.0 on exact equality, else the matcher ratio of the lower-cased texts. -/
def calculate_similarity_dialogue (text1 text2 : List Char) : ℚ :=
  if text1 = text2 then 1 else SeqMatcher.ratioQ (lowerStr text1) (lowerStr text2)

/-- `CorrectionService._calculate_similarity`: 1.0 on exact equality, else
the matcher ratio of the raw texts (this service does not lower-case). -/
def calculate_similarity_correction (text1 text2 : List Char) : ℚ :=
  if text1 = text2 then 1 else SeqMatcher.ratioQ text1 text2

/-! ## Agent service: tool-call parsing (`AgentService._parse_tool_calls`)

The Planning response is scanned with the non-greedy regex
`\[TOOL_CALL\](.*?)\[/TOOL_CALL\]` (DOTALL); each delimited block is
stripped and fed to `json.loads`, and blocks that raise `JSONDecodeError`
are skipped.  The decoder below follows CPython's `json` module: the four
JSON whitespace characters, strict strings (escape sequences including
`\uXXXX` with surrogate pairs, control characters rejected), the JSON
number grammar plus the module's `NaN`/`Infinity`/`-Infinity` constants,
and arbitrarily nested arrays and objects.  A lone-surrogate escape, which
Python keeps as an unpaired surrogate code unit, falls outside Lean's
`Char` and decodes here as NUL; no claim touches such a string. -/

/-- Whitespace as recognised by the JSON lexer (`' '`, `'\t'`, `'\n'`,
`'\r'`). -/
def isWsChar (c : Char) : Bool := c = ' ' || c = '\t' || c = '\n' || c = '\r'

/-- Drop leading JSON whitespace. -/
def wsDrop (s : List Char) : List Char := s.dropWhile isWsChar

/-- Python `str.isspace`, character by character: the code points
`str.strip()` removes. -/
def isPySpace (c : Char) : Bool :=
  (9 ≤ c.toNat ∧ c.toNat ≤ 13) || (28 ≤ c.toNat ∧ c.toNat ≤ 31) || c.toNat = 32 ||
  c.toNat = 133 || c.toNat = 160 || c.toNat = 5760 ||
  (8192 ≤ c.toNat ∧ c.toNat ≤ 8202) || c.toNat = 8232 || c.toNat = 8233 ||
  c.toNat = 8239 || c.toNat = 8287 || c.toNat = 12288

/-- Python `str.strip()`. -/
def pyStrip (s : List Char) : List Char :=
  ((s.dropWhile isPySpace).reverse.dropWhile isPySpace).reverse

/-- The non-greedy regex findall: find an opener, then the nearest closer
after it; the delimited content is one match and scanning resumes after the
closer. -/
def extractBlocksGo (openTag closeTag : List Char) : Nat → List Char → List (List Char)
  | 0, _ => []
  | fuel + 1, s =>
    match findSub openTag s with
    | none => []
    | some i =>
      let rest := s.drop (i + openTag.length)
      match findSub closeTag rest with
      | none => []
      | some j => rest.take j :: extractBlocksGo openTag closeTag fuel (rest.drop (j + closeTag.length))

/-- All `[TOOL_CALL] ... [/TOOL_CALL]` blocks of a response, left to right. -/
def extractBlocks (s : List Char) : List (List Char) :=
  extractBlocksGo "[TOOL_CALL]".data "[/TOOL_CALL]".data (s.length + 1) s

/-- Value of one hexadecimal digit. -/
def parseHexDigit (c : Char) : Option Nat :=
  if '0' ≤ c ∧ c ≤ '9' then some (c.toNat - 48)
  else if 'a' ≤ c ∧ c ≤ 'f' then some (c.toNat - 87)
  else if 'A' ≤ c ∧ c ≤ 'F' then some (c.toNat - 55)
  else none

/-- Four hexadecimal digits, as in a `\uXXXX` escape. -/
def parseHex4 : List Char → Option (Nat × List Char)
  | a :: b :: c :: d :: rest =>
    (match parseHexDigit a, parseHexDigit b, parseHexDigit c, parseHexDigit d with
     | some x, some y, some z, some w => some (((x * 16 + y) * 16 + z) * 16 + w, rest)
     | _, _, _, _ => none)
  | _ => none

/-- Body of a JSON string literal after the opening quote: strict mode
rejects raw control characters and unknown escapes; a high-surrogate escape
followed by a low-surrogate escape combines into one character. -/
def parseJStrGo : Nat → List Char → List Char → Option (String × List Char)
  | 0, _, _ => none
  | fuel + 1, acc, s =>
    match s with
    | [] => none
    | '"' :: rest => some (String.mk acc.reverse, rest)
    | '\\' :: e :: rest =>
      (match e with
       | '"' => parseJStrGo fuel ('"' :: acc) rest
       | '\\' => parseJStrGo fuel ('\\' :: acc) rest
       | '/' => parseJStrGo fuel ('/' :: acc) rest
       | 'b' => parseJStrGo fuel ('\x08' :: acc) rest
       | 'f' => parseJStrGo fuel ('\x0c' :: acc) rest
       | 'n' => parseJStrGo fuel ('\n' :: acc) rest
       | 'r' => parseJStrGo fuel ('\r' :: acc) rest
       | 't' => parseJStrGo fuel ('\t' :: acc) rest
       | 'u' =>
         (match parseHex4 rest with
          | none => none
          | some (n1, r1) =>
            if 0xd800 ≤ n1 ∧ n1 ≤ 0xdbff then
              match r1 with
              | '\\' :: 'u' :: r2 =>
                (match parseHex4 r2 with
                 | some (n2, r3) =>
                   if 0xdc00 ≤ n2 ∧ n2 ≤ 0xdfff then
                     parseJStrGo fuel
                       (Char.ofNat (0x10000 + (n1 - 0xd800) * 0x400 + (n2 - 0xdc00)) :: acc) r3
                   else parseJStrGo fuel (Char.ofNat n1 :: acc) r1
                 | none => parseJStrGo fuel (Char.ofNat n1 :: acc) r1)
              | _ => parseJStrGo fuel (Char.ofNat n1 :: acc) r1
            else parseJStrGo fuel (Char.ofNat n1 :: acc) r1)
       | _ => none)
    | '\\' :: [] => none
    | c :: rest =>
      if c.toNat < 32 then none
      else parseJStrGo fuel (c :: acc) rest

/-- Parse a JSON string literal. -/
def parseJString : List Char → Option (String × List Char)
  | '"' :: rest => parseJStrGo (rest.length + 1) [] rest
  | _ => none

/-- Leading decimal digits and the remainder. -/
def scanDigits (s : List Char) : List Char × List Char :=
  (s.takeWhile Char.isDigit, s.dropWhile Char.isDigit)

/-- Integer part of the JSON number grammar: `0` or a nonzero digit followed
by digits. -/
def scanIntPart : List Char → Option (List Char × List Char)
  | '0' :: rest => some (['0'], rest)
  | c :: rest =>
    if c.isDigit then
      let p := scanDigits rest
      some (c :: p.1, p.2)
    else none
  | [] => none

/-- Optional fraction part `.digits`.  Where this scanner rejects, Python's
regex would match the shorter token and leave a `'.'` or bare digits that no
following delimiter accepts, so acceptance of the whole document agrees. -/
def scanFrac (s : List Char) : Option (List Char × List Char) :=
  match s with
  | '.' :: r =>
    let p := scanDigits r
    if p.1 = [] then none else some ('.' :: p.1, p.2)
  | _ => some ([], s)

/-- Optional exponent part `[eE][+-]?digits` (same shorter-match remark as
`scanFrac`). -/
def scanExp (s : List Char) : Option (List Char × List Char) :=
  match s with
  | c :: r =>
    if c = 'e' ∨ c = 'E' then
      match r with
      | sg :: r2 =>
        if sg = '+' ∨ sg = '-' then
          let p := scanDigits r2
          if p.1 = [] then none else some (c :: sg :: p.1, p.2)
        else
          let p := scanDigits r
          if p.1 = [] then none else some (c :: p.1, p.2)
      | [] => none
    else some ([], s)
  | [] => some ([], s)

/-- Unsigned number token: integer part, optional fraction, optional
exponent. -/
def scanNumBody (s : List Char) : Option (List Char × List Char) :=
  match scanIntPart s with
  | none => none
  | some (ip, r1) =>
    match scanFrac r1 with
    | none => none
    | some (fp, r2) =>
      match scanExp r2 with
      | none => none
      | some (ep, r3) => some (ip ++ fp ++ ep, r3)

/-- A JSON number token, with optional leading minus. -/
def scanNumTok : List Char → Option (String × List Char)
  | '-' :: r =>
    (match scanNumBody r with
     | some (t, r2) => some (String.mk ('-' :: t), r2)
     | none => none)
  | s =>
    match scanNumBody s with
    | some (t, r2) => some (String.mk t, r2)
    | none => none

/-! JSON values, object member lists and array element lists are parsed
mutually, recursing on an explicit fuel (one unit per nesting step, so
twice the input length suffices). -/

mutual

/-- Parse one JSON value at the head of the input (no leading whitespace). -/
def parseJValue : Nat → List Char → Option (JVal × List Char)
  | 0, _ => none
  | fuel + 1, s =>
    match s with
    | '"' :: _ =>
      (match parseJString s with
       | some (v, r) => some (.str v, r)
       | none => none)
    | '\x7b' :: rest =>
      (match wsDrop rest with
       | '\x7d' :: r => some (.obj .nil, r)
       | s2 =>
         match parseJMembers fuel s2 with
         | some (fs, r) => some (.obj fs, r)
         | none => none)
    | '[' :: rest =>
      (match wsDrop rest with
       | ']' :: r => some (.arr .nil, r)
       | s2 =>
         match parseJElems fuel s2 with
         | some (vs, r) => some (.arr vs, r)
         | none => none)
    | _ =>
      if s.take 4 = "null".data then some (.null, s.drop 4)
      else if s.take 4 = "true".data then some (.jbool true, s.drop 4)
      else if s.take 5 = "false".data then some (.jbool false, s.drop 5)
      else
        match scanNumTok s with
        | some (tok, r) => some (.num tok, r)
        | none =>
          if s.take 3 = "NaN".data then some (.num "NaN", s.drop 3)
          else if s.take 8 = "Infinity".data then some (.num "Infinity", s.drop 8)
          else if s.take 9 = "-Infinity".data then some (.num "-Infinity", s.drop 9)
          else none

/-- Parse `"key": value (, ...)* \x7d` object members, whitespace allowed
around every token. -/
def parseJMembers : Nat → List Char → Option (JObj × List Char)
  | 0, _ => none
  | fuel + 1, s =>
    match parseJString s with
    | none => none
    | some (k, r1) =>
      match wsDrop r1 with
      | ':' :: r2 =>
        (match parseJValue fuel (wsDrop r2) with
         | none => none
         | some (v, r3) =>
           match wsDrop r3 with
           | ',' :: r4 =>
             (match parseJMembers fuel (wsDrop r4) with
              | some (fs, r5) => some (.cons k v fs, r5)
              | none => none)
           | '\x7d' :: r4 => some (.cons k v .nil, r4)
           | _ => none)
      | _ => none

/-- Parse `value (, ...)* ]` array elements. -/
def parseJElems : Nat → List Char → Option (JArr × List Char)
  | 0, _ => none
  | fuel + 1, s =>
    match parseJValue fuel s with
    | none => none
    | some (v, r) =>
      match wsDrop r with
      | ',' :: r2 =>
        (match parseJElems fuel (wsDrop r2) with
         | some (vs, r3) => some (.cons v vs, r3)
         | none => none)
      | ']' :: r2 => some (.cons v .nil, r2)
      | _ => none

end

/-- CPython `json.loads`: skip leading whitespace, parse one value, and
require only whitespace after it. -/
def json_loads (s : List Char) : Option JVal :=
  let t := wsDrop s
  match parseJValue (2 * t.length + 2) t with
  | some (v, r) => if wsDrop r = [] then some v else none
  | none => none

/-- `AgentService._parse_tool_calls`: every delimited block that
`json.loads(match.strip())` accepts, in order; blocks that fail are skipped
(`except json.JSONDecodeError: continue`). -/
def parse_tool_calls (response : List Char) : List JVal :=
  (extractBlocks response).filterMap (fun b => json_loads (pyStrip b))

/-- A parsed block that decoded to a dict, as the invocation loop consumes
it.  A block decoding to anything else makes the loop raise (see
`runAgentCalls`); `runToolCalls` below works on this non-raising shape and
is tied to the full loop by `runAgentCalls_eq_runToolCalls`. -/
structure ToolCall where
  fields : JObj
deriving DecidableEq

/-- `tool_call.get("tool")` when it names a registry-testable string (a
non-string hashable value fails every registry membership test, so the loop
skips the call exactly as for an absent key). -/
def ToolCall.toolName (c : ToolCall) : Option String :=
  match c.fields.get "tool" with
  | some (.str s) => some s
  | _ => none

/-- `tool_call.get("args", \x7b\x7d)`. -/
def ToolCall.toolArgs (c : ToolCall) : JVal :=
  (c.fields.get "args").getD (.obj .nil)

/-- Calls on which the loop raises `TypeError` while hashing the `tool`
value for the registry membership test (`list`/`dict` are unhashable). -/
def ToolCall.aborts (c : ToolCall) : Bool :=
  match c.fields.get "tool" with
  | some (.arr _) => true
  | some (.obj _) => true
  | _ => false

/-! ## Agent service: the Tool Registry and the invocation loop -/

/-- The keys of `self.available_tools`. -/
def available_tool_names : List String :=
  ["web_search", "calculator", "text_analyzer", "file_reader", "api_caller"]

/-- Keyword-argument binding for `tool(**tool_args)`: every required
parameter must be supplied and no key may fall outside the signature,
otherwise Python raises `TypeError` (caught by the loop and recorded as a
failure).  Repeated keys are collapsed by the dict before unpacking, which
leaves both containment tests unchanged. -/
def kwargsOk (required optional : List String) (kw : JObj) : Bool :=
  required.all (fun k => kw.keyList.contains k) &&
    kw.keyList.all (fun k => (required ++ optional).contains k)

/-- The `TypeError` text for a bad keyword binding (exact Python phrasing
not reproduced; no claim depends on it). -/
def typeErrMsg (name : String) : String :=
  "TypeError: bad keyword arguments for " ++ name

/-- The `TypeError` text for `tool(**args)` when `args` is not a mapping
(exact Python phrasing not reproduced; no claim depends on it). -/
def mappingErrMsg : String := "TypeError: argument after ** must be a mapping"

/-- The `AttributeError` text for `text.split()` on a non-string (exact
Python phrasing not reproduced; no claim depends on it). -/
def attrErrMsg : String := "AttributeError: object has no attribute 'split'"

/-- The characters `_calculator` accepts. -/
def allowedCalcChars : List Char := "0123456789+-*/.() ".data

/-- Integer literal at the head of the input. -/
def parseIntLit (s : List Char) : Option (Int × List Char) :=
  let ds := s.takeWhile (fun c => c.isDigit)
  if ds = [] then none
  else some (((ds.foldl (fun acc c => acc * 10 + (c.toNat - 48)) 0 : Nat) : Int),
    s.dropWhile (fun c => c.isDigit))

mutual

/-- Atom of the expression grammar: integer, parenthesized expression, or
unary minus. -/
def pyEvalAtom : Nat → List Char → Option (Int × List Char)
  | 0, _ => none
  | fuel + 1, s =>
    match s with
    | '(' :: rest =>
      (match pyEvalExpr fuel rest with
       | some (v, ')' :: r) => some (v, r)
       | _ => none)
    | '-' :: rest =>
      (match pyEvalAtom fuel rest with
       | some (v, r) => some (-v, r)
       | _ => none)
    | _ => parseIntLit s

/-- Products continuing an atom. -/
def pyEvalTermGo : Nat → Int → List Char → Option (Int × List Char)
  | 0, _, _ => none
  | fuel + 1, acc, s =>
    match s with
    | '*' :: r =>
      (match pyEvalAtom fuel r with
       | some (v, r2) => pyEvalTermGo fuel (acc * v) r2
       | none => none)
    | _ => some (acc, s)

/-- A product of atoms. -/
def pyEvalTerm : Nat → List Char → Option (Int × List Char)
  | 0, _ => none
  | fuel + 1, s =>
    match pyEvalAtom fuel s with
    | some (v, r) => pyEvalTermGo fuel v r
    | none => none

/-- Sums continuing a term. -/
def pyEvalExprGo : Nat → Int → List Char → Option (Int × List Char)
  | 0, _, _ => none
  | fuel + 1, acc, s =>
    match s with
    | '+' :: r =>
      (match pyEvalTerm fuel r with
       | some (v, r2) => pyEvalExprGo fuel (acc + v) r2
       | none => none)
    | '-' :: r =>
      (match pyEvalTerm fuel r with
       | some (v, r2) => pyEvalExprGo fuel (acc - v) r2
       | none => none)
    | _ => some (acc, s)

/-- A sum of products. -/
def pyEvalExpr : Nat → List Char → Option (Int × List Char)
  | 0, _ => none
  | fuel + 1, s =>
    match pyEvalTerm fuel s with
    | some (v, r) => pyEvalExprGo fuel v r
    | none => none

end

/-- Model of `eval(expression)` in `_calculator` for integer arithmetic with
`+`, `-`, `*` and parentheses (spaces stripped first).  True division and
float literals, which Python would evaluate to floats, are outside the
model and read as a failed parse; no claim depends on a calculator
result. -/
def pyEvalInt (s : List Char) : Option Int :=
  let t := s.filter (fun c => c != ' ')
  match pyEvalExpr (t.length + 1) t with
  | some (v, []) => some v
  | _ => none

/-- `AgentService._calculator`: its internal `try/except` turns evaluation
errors into a result string, so the tool itself only fails on keyword
binding. -/
def calculatorBody (expression : String) : String :=
  if expression.data.all (fun c => allowedCalcChars.contains c) then
    match pyEvalInt expression.data with
    | some v => expression ++ " = " ++ toString v
    | none => "计算错误: invalid expression"
  else
    "表达式包含不允许的字符"

/-- `AgentService._text_analyzer`. -/
def textAnalyzerBody (text : String) : String :=
  "文本分析结果：字符数 " ++ toString text.length ++ "，单词数 " ++
    toString (splitWs text.data).length

/-- The `TypeError` result text `_calculator`'s internal `try/except`
produces when iterating or `eval`-ing a non-string expression raises (exact
Python phrasing not reproduced; no claim depends on it). -/
def calcErrMsg : String := "计算错误: TypeError"

/-- One step of `c in allowed_chars` while iterating a non-string
`expression`: `none` models the `TypeError` raised when hashing an
unhashable element; a string element is in the set exactly when it is one
allowed character. -/
def calcElemAllowed : JVal → Option Bool
  | .arr _ => none
  | .obj _ => none
  | .str s =>
    (match s.data with
     | [c] => some (allowedCalcChars.contains c)
     | _ => some false)
  | _ => some false

/-- Left-to-right short-circuiting `all(c in allowed_chars for c in ...)`
over the iterated elements. -/
def calcScanElems : List JVal → Option Bool
  | [] => some true
  | v :: rest =>
    match calcElemAllowed v with
    | none => none
    | some false => some false
    | some true => calcScanElems rest

/-- Keys of a dict in first-insertion order, repeats collapsed, as Python
iterates them. -/
def dedupFirst (keys : List String) : List String :=
  keys.foldl (fun acc k => if acc.contains k then acc else acc ++ [k]) []

/-- `_calculator` on a successfully bound call: a string expression takes
the modelled string path; iterating a number, boolean or `None` raises
`TypeError` into the tool's own `try` (reported as a result string); a list
or dict is iterated element by element (dict: deduplicated keys) — an
unhashable element raises into the `try`, a disallowed element short-circuits
to the reject message, and if every element passes, `eval` of a non-string
raises into the `try`.  Every branch returns normally, so a bound calculator
call never yields a failed record. -/
def calculatorBodyJ : JVal → String
  | .str s => calculatorBody s
  | .arr xs =>
    (match calcScanElems xs.toList with
     | none => calcErrMsg
     | some false => "表达式包含不允许的字符"
     | some true => calcErrMsg)
  | .obj fs =>
    (match calcScanElems ((dedupFirst fs.keyList).map JVal.str) with
     | none => calcErrMsg
     | some false => "表达式包含不允许的字符"
     | some true => calcErrMsg)
  | _ => calcErrMsg

/-- `await self.available_tools[name](**args)`: a non-mapping `args` raises
`TypeError` at the call, a bad keyword binding raises `TypeError`, and
otherwise the tool body runs — `web_search`, `file_reader` and `api_caller`
format any argument value into their result f-string, `calculator` handles
every bound value internally, and `text_analyzer` raises `AttributeError`
on `text.split()` when `text` is not a string. -/
def callTool (name : String) (args : JVal) : Except String String :=
  match args with
  | .obj kw =>
    if name = "web_search" then
      if kwargsOk ["query"] ["num_results"] kw then
        .ok ("搜索 '" ++ pyStr ((kw.get "query").getD .null) ++ "' 的结果：找到 " ++
          pyStr ((kw.get "num_results").getD (.num "5")) ++ " 个相关结果（模拟数据）")
      else .error (typeErrMsg name)
    else if name = "calculator" then
      if kwargsOk ["expression"] [] kw then
        .ok (calculatorBodyJ ((kw.get "expression").getD .null))
      else .error (typeErrMsg name)
    else if name = "text_analyzer" then
      if kwargsOk ["text"] [] kw then
        (match kw.get "text" with
         | some (.str s) => .ok (textAnalyzerBody s)
         | _ => .error attrErrMsg)
      else .error (typeErrMsg name)
    else if name = "file_reader" then
      if kwargsOk ["file_path"] [] kw then
        .ok ("读取文件 '" ++ pyStr ((kw.get "file_path").getD .null) ++ "' 的内容（模拟数据）")
      else .error (typeErrMsg name)
    else if name = "api_caller" then
      if kwargsOk ["url"] ["method", "data"] kw then
        .ok ("调用API " ++ pyStr ((kw.get "method").getD (.str "GET")) ++ " " ++
          pyStr ((kw.get "url").getD .null) ++ " 的结果（模拟数据）")
      else .error (typeErrMsg name)
    else .error ("KeyError: " ++ name)
  | _ => .error mappingErrMsg

/-- The permission test of the loop:
`tool_name in self.available_tools and (not tools or tool_name in tools)`.
Note `not tools` is true both for `None` and for an empty allow-list. -/
def tool_permitted (tools : Option (List String)) (name : String) : Bool :=
  available_tool_names.contains name &&
    (match tools with
     | none => true
     | some l => l.isEmpty || l.contains name)

/-- The `AttributeError` text for `tool_call.get` on a non-dict (exact
Python phrasing not reproduced; no claim depends on it). -/
def getAttrErrMsg : String := "AttributeError: object has no attribute 'get'"

/-- The `TypeError` text for hashing an unhashable `tool` value (exact
Python phrasing not reproduced; no claim depends on it). -/
def unhashableErrMsg : String := "TypeError: unhashable type"

/-- The `for tool_call in tool_calls` loop shared verbatim by
`_execute_openai` and `_execute_anthropic`, on the dict-shaped, hashably
keyed calls where it cannot raise (`runAgentCalls` below is the full loop;
`runAgentCalls_eq_runToolCalls` ties the two together): permitted calls run
and append a success or failure record (the `try/except` around the call),
everything else is skipped. -/
def runToolCalls (tools : Option (List String)) (calls : List ToolCall) :
    List ActionRecord :=
  calls.foldl
    (fun acc c =>
      match c.toolName with
      | some name =>
        if tool_permitted tools name then
          acc ++ [⟨name, c.toolArgs, callTool name c.toolArgs⟩]
        else acc
      | none => acc)
    []

/-- The same loop over everything `json.loads` may have produced, raising
(`Except.error`) where Python does: `tool_call.get` on a non-dict raises
`AttributeError` out of the invocation, and hashing an unhashable `tool`
value for the registry membership test raises `TypeError`; a hashable
non-string `tool` value simply fails the membership test and the call is
skipped.  A raise discards every record accumulated so far, exactly as the
service's outer `except` does. -/
def runAgentLoopGo (tools : Option (List String)) :
    List JVal → List ActionRecord → Except String (List ActionRecord)
  | [], acc => .ok acc
  | v :: rest, acc =>
    match v with
    | .obj fields =>
      (match fields.get "tool" with
       | some (.arr _) => .error unhashableErrMsg
       | some (.obj _) => .error unhashableErrMsg
       | some (.str name) =>
         let tool_args := (fields.get "args").getD (.obj .nil)
         if tool_permitted tools name then
           runAgentLoopGo tools rest (acc ++ [⟨name, tool_args, callTool name tool_args⟩])
         else runAgentLoopGo tools rest acc
       | _ => runAgentLoopGo tools rest acc)
    | _ => .error getAttrErrMsg

/-- The execution loop over the parsed calls, started on an empty record
list. -/
def runAgentCalls (tools : Option (List String)) (calls : List JVal) :
    Except String (List ActionRecord) :=
  runAgentLoopGo tools calls []

/-- Output shape of the agent service. -/
structure AgentOutput where
  result : String
  actions_taken : List ActionRecord
  confidence : ℚ
deriving DecidableEq

/-- `AgentService._execute_openai` with the provider injected as the
sequence of round responses (`provider 0` is the Planning response,
`provider 1` the answer to the synthesis round that replays the exchange
plus the tool-result summary).  When any record exists a second round is
issued and its response is the result; otherwise the Planning response is
the result.  An exception escaping the loop is re-raised by the outer
`except` with the path's prefix. -/
def execute_openai (provider : Nat → String) (tools : Option (List String)) :
    Except String AgentOutput :=
  let agent_response := provider 0
  match runAgentCalls tools (parse_tool_calls agent_response.data) with
  | .error e => .error ("OpenAI Agent执行失败: " ++ e)
  | .ok actions_taken =>
    let result := if actions_taken ≠ [] then provider 1 else agent_response
    .ok ⟨result, actions_taken, calculate_confidence result actions_taken⟩

/-- `AgentService._execute_anthropic`: the same parsing and tool loop, but
`result = agent_response` unconditionally — this path never issues a second
provider round. -/
def execute_anthropic (provider : Nat → String) (tools : Option (List String)) :
    Except String AgentOutput :=
  let agent_response := provider 0
  match runAgentCalls tools (parse_tool_calls agent_response.data) with
  | .error e => .error ("Anthropic Agent执行失败: " ++ e)
  | .ok actions_taken =>
    .ok ⟨agent_response, actions_taken, calculate_confidence agent_response actions_taken⟩

/-! ## RAG service: retrieval (`RAGService._retrieve_documents`,
`_keyword_based_retrieval`) -/

/-- One retrieved passage. -/
structure RetrievedDoc where
  content : String
  score : ℚ
  index : Nat
deriving DecidableEq, Repr

/-- `RAGService._keyword_based_retrieval`: score each document by
`|words(query) ∩ words(doc)| / |words(query)|` (0 for a wordless query),
sort `(idx, score, doc)` triples by score descending — Python `list.sort`
with `reverse=True` is stable, as is `mergeSort` — and keep the first
`top_k`. -/
def keyword_based_retrieval (query : String) (documents : List String)
    (top_k : Nat) : List RetrievedDoc :=
  let query_words := (splitWs (lowerStr query.data)).dedup
  let doc_scores := documents.enum.map (fun p =>
    let doc_words := (splitWs (lowerStr p.2.data)).dedup
    let common := query_words.filter (fun w => doc_words.contains w)
    (p.1,
      if query_words.isEmpty then (0 : ℚ)
      else (common.length : ℚ) / (query_words.length : ℚ),
      p.2))
  let sorted := doc_scores.mergeSort (fun x y => decide (y.2.1 ≤ x.2.1))
  (sorted.take top_k).map (fun t => ⟨t.2.2, t.2.1, t.1⟩)

/-- `np.argsort(similarities)` in ascending order.  The similarity vector is
whatever the external embedding model produced, so it is injected.  NumPy's
default sort leaves the order of equal entries unspecified; we model the
stable (index-ascending) order it exhibits on small arrays. -/
def argsortAsc (sims : List ℚ) : List Nat :=
  ((sims.enum).mergeSort (fun x y =>
    decide (x.2 < y.2 ∨ (x.2 = y.2 ∧ x.1 ≤ y.1)))).map (·.1)

/-- The semantic branch of `RAGService._retrieve_documents`:
`np.argsort(similarities)[::-1][:top_k]`, each index paired with its
document and score. -/
def semantic_retrieval (documents : List String) (sims : List ℚ)
    (top_k : Nat) : List RetrievedDoc :=
  ((argsortAsc sims).reverse.take top_k).map (fun idx =>
    ⟨documents.getD idx "", sims.getD idx 0, idx⟩)

/-! ## RAG service: answer generation and confidence -/

/-- Output shape of the RAG service. -/
structure RAGOutput where
  answer : String
  retrieved_documents : List RetrievedDoc
  confidence : ℚ
deriving DecidableEq, Repr

/-- `RAGService._calculate_answer_confidence`. -/
def calculate_answer_confidence (answer : String)
    (retrieved_docs : List RetrievedDoc) : ℚ :=
  if retrieved_docs = [] then 3/10
  else
    let avg := ((retrieved_docs.map (·.score)).sum) / (retrieved_docs.length : ℚ)
    let length_score := min 1 ((answer.length : ℚ) / 200)
    min (95/100) (max (1/10) (avg * (6/10) + length_score * (4/10)))

/-- `RAGService._generate_openai` on the success path, the provider's answer
text injected: the confidence comes from `_calculate_answer_confidence`. -/
def generate_openai_rag (answer : String) (retrieved_docs : List RetrievedDoc) :
    RAGOutput :=
  ⟨answer, retrieved_docs, calculate_answer_confidence answer retrieved_docs⟩

/-- `RAGService._generate_anthropic` on the success path. -/
def generate_anthropic_rag (answer : String) (retrieved_docs : List RetrievedDoc) :
    RAGOutput :=
  ⟨answer, retrieved_docs, calculate_answer_confidence answer retrieved_docs⟩

/-- `RAGService._generate_mock`: with passages, the answer embeds the first
passage truncated to 200 characters and the confidence is the
`random.uniform(0.6, 0.9)` draw (injected as `runif`); with no passage, the
apology answer and confidence 0.3. -/
def generate_mock_rag (query : String) (retrieved_docs : List RetrievedDoc)
    (runif : ℚ) : RAGOutput :=
  match retrieved_docs with
  | d :: _ =>
    ⟨"基于检索到的文档，关于'" ++ query ++ "'的答案是：" ++
      String.mk (d.content.data.take 200) ++ "...", retrieved_docs, runif⟩
  | [] =>
    ⟨"抱歉，没有找到与'" ++ query ++ "'相关的文档信息。", [], 3/10⟩

/-! ## Classification service: heuristic label extraction
(`ClassificationService._extract_label_from_text`) -/

/-- The `for label in labels` loop: the first label whose lower-cased form
occurs in the lower-cased response wins. -/
def extract_label_loop (text_lower : List Char) : List String → Option String
  | [] => none
  | l :: ls =>
    if occursIn (lowerStr l.data) text_lower then some l
    else extract_label_loop text_lower ls

/-- `_extract_label_from_text`.  `if labels:` is Python truthiness, so an
empty label list takes the sentiment branch together with `None`. -/
def extract_label_from_text (text : String) (labels : Option (List String)) :
    String :=
  let text_lower := lowerStr text.data
  match labels with
  | some (l :: ls) =>
    (match extract_label_loop text_lower (l :: ls) with
     | some m => m
     | none => l)
  | _ =>
    if occursIn "positive".data text_lower || occursIn "积极".data text_lower then
      "positive"
    else if occursIn "negative".data text_lower || occursIn "消极".data text_lower then
      "negative"
    else "neutral"

/-! ## Dialogue evaluation (`DialogueService.evaluate`) -/

/-- `DialogueService.evaluate`.  `length_ratio` divides by
`max(len(predicted.response), len(expected.response))`; when both responses
are empty Python raises `ZeroDivisionError`, modelled as `none`. -/
def dialogue_evaluate (predicted expected : DialogueOutput) :
    Option DialogueMetrics :=
  let relevance := calculate_similarity_dialogue predicted.response.data
    expected.response.data
  let pl := predicted.response.length
  let el := expected.response.length
  if max pl el = 0 then none
  else some
    { relevance_score := relevance
      length_diff := max pl el - min pl el
      lengthQuotient := ((min pl el : ℚ)) / ((max pl el : ℚ))
      confidence_diff := |predicted.confidence - expected.confidence|
      context_consistency := if predicted.context_used = expected.context_used then 1 else 0
      predicted_length := pl
      expected_length := el
      predicted_confidence := predicted.confidence
      expected_confidence := expected.confidence }

namespace SeqMatcher

/-- Length of the contiguous run of non-popular characters of `s` ending at
position `r` (0 when `s[r]` itself is popular).  This is the quantity the
diagonal entries of the `find_longest_match` dynamic programming track when
the matcher compares `s` with itself. -/
def runlen (s : List Char) : Nat → Nat
  | 0 => if popularChar s (s.getD 0 ' ') then 0 else 1
  | r + 1 => if popularChar s (s.getD (r + 1) ' ') then 0 else runlen s r + 1

/-- Invariant of the `find_longest_match` loop when the matcher compares `s`
with itself over the full windows, after processing rows `[0, r)`: the best
block is diagonal and dominates every non-popular run that has ended, and
the row dict is bounded by the runs its entries extend. -/
def DiagInv (s : List Char) (r : Nat) (st : FlmState) : Prop :=
  st.besti = st.bestj ∧
  st.besti + st.bestsize ≤ r ∧
  (∀ j, j < r → runlen s j ≤ st.bestsize) ∧
  (∀ j, st.j2len j ≤ runlen s j) ∧
  (∀ j, st.j2len j ≤ (if r = 0 then 0 else runlen s (r - 1))) ∧
  (r ≠ 0 → st.j2len (r - 1) = runlen s (r - 1))

/-- Invariant of the `find_longest_match` loop over the window
`[alo, ·) × [blo, bhi)` of two arbitrary texts, after processing rows
`[alo, R)`: the best block is a real in-window match and each dict entry is
a real backward match ending at the previous row. -/
def ValidInv (a b : List Char) (alo blo bhi R : Nat) (st : FlmState) : Prop :=
  (alo ≤ st.besti ∧ blo ≤ st.bestj ∧ st.besti + st.bestsize ≤ R ∧
    st.bestj + st.bestsize ≤ bhi ∧
    ∀ t, t < st.bestsize →
      a.getD (st.besti + t) ' ' = b.getD (st.bestj + t) ' ') ∧
  (∀ j, 0 < st.j2len j →
    blo ≤ j ∧ j < bhi ∧ st.j2len j + blo ≤ j + 1 ∧ st.j2len j + alo ≤ R ∧
    ∀ t, t < st.j2len j → a.getD (R - 1 - t) ' ' = b.getD (j - t) ' ')

end SeqMatcher

/-! # Theorems -/

/-! ## Helper lemmas -/

theorem pyClamp_bounds (lo hi x : ℚ) (h : lo ≤ hi) :
    lo ≤ pyClamp lo hi x ∧ pyClamp lo hi x ≤ hi :=
  ⟨le_min h (le_max_left lo x), min_le_left hi _⟩

theorem strLength_eq_zero {s : String} (h : s.length = 0) : s = "" := by
  cases s with
  | mk d =>
    have hd : d = [] := List.length_eq_zero.mp h
    simp [hd]

/-! ## C4: agent confidence -/

/-- C4: for every final result text and list of tool-execution records, the
agent confidence equals base 0.7, adjusted (only when at least one call was
attempted) by ±0.3 scaled by the fraction of successful tool calls, plus 0.1
when the result length exceeds 100, and the returned value always lies
within [0.1, 0.95]. -/
theorem C4_agent_confidence (result : String) (actions_taken : List ActionRecord) :
    calculate_confidence result actions_taken = specAgentConfidence result actions_taken ∧
    1/10 ≤ calculate_confidence result actions_taken ∧
    calculate_confidence result actions_taken ≤ 95/100 := by
  have he : calculate_confidence result actions_taken =
      specAgentConfidence result actions_taken := by
    unfold calculate_confidence specAgentConfidence pyClamp
    by_cases h : actions_taken = [] <;>
      by_cases h2 : result.length > 100 <;>
        simp only [h, h2, if_true, if_false, ne_eq, not_true_eq_false, not_false_eq_true,
          ite_true, ite_false] <;> ring_nf
  refine ⟨he, ?_, ?_⟩
  · rw [he]; unfold specAgentConfidence
    exact (pyClamp_bounds _ _ _ (by norm_num)).1
  · rw [he]; unfold specAgentConfidence
    exact (pyClamp_bounds _ _ _ (by norm_num)).2

/-! ## C9: backend selection -/

/-- C9: for every model-name string, backend selection never raises (it is a
total function below): names with the `gpt-` prefix route to the OpenAI
strategy, names with the `claude-` prefix to the Anthropic strategy, and
every other name resolves to the fallback — in the classification service
the `huggingface/` prefix selects a strategy that is definitionally the mock
fallback. -/
theorem C9_backend_selection (name : String) :
    (startsWithL name "gpt-" = true →
      classify_select name = .openai ∧ execute_task_select name = .openai) ∧
    (startsWithL name "gpt-" = false → startsWithL name "claude-" = true →
      classify_select name = .anthropic ∧ execute_task_select name = .anthropic) ∧
    (startsWithL name "gpt-" = false → startsWithL name "claude-" = false →
      startsWithL name "huggingface/" = true →
      classify_select name = .huggingface ∧ execute_task_select name = .mock ∧
      ∀ labels rchoice runif,
        classify_huggingface labels rchoice runif = classify_mock labels rchoice runif) ∧
    (startsWithL name "gpt-" = false → startsWithL name "claude-" = false →
      startsWithL name "huggingface/" = false →
      classify_select name = .mock ∧ execute_task_select name = .mock) := by
  refine ⟨fun h1 => ?_, fun h1 h2 => ?_, fun h1 h2 h3 => ?_, fun h1 h2 h3 => ?_⟩
  · simp [classify_select, execute_task_select, h1]
  · simp [classify_select, execute_task_select, h1, h2]
  · simp [classify_select, execute_task_select, h1, h2, h3, classify_huggingface]
  · simp [classify_select, execute_task_select, h1, h2, h3]

/-- Witness for C9 at concrete model names of all four shapes. -/
theorem C9_witness :
    classify_select "gpt-4" = .openai ∧
    execute_task_select "claude-3-opus" = .anthropic ∧
    classify_select "huggingface/bert" = .huggingface ∧
    classify_select "local-llama" = .mock ∧ execute_task_select "local-llama" = .mock :=
  ⟨((C9_backend_selection "gpt-4").1 (by decide)).1,
   ((C9_backend_selection "claude-3-opus").2.1 (by decide) (by decide)).2,
   ((C9_backend_selection "huggingface/bert").2.2.1 (by decide) (by decide) (by decide)).1,
   ((C9_backend_selection "local-llama").2.2.2 (by decide) (by decide) (by decide)).1,
   ((C9_backend_selection "local-llama").2.2.2 (by decide) (by decide) (by decide)).2⟩

/-! ## C10: dialogue scorer length-ratio divisor -/

/-- C10: the dialogue scorer's `length_ratio` divides by the maximum of the
two response lengths, so it is well defined exactly when at least one
response is non-empty; when both responses are empty the divisor is zero
(Python raises `ZeroDivisionError`, modelled as `none`). -/
theorem C10_dialogue_length_divisor (p e : DialogueOutput) :
    ((p.response ≠ "" ∨ e.response ≠ "") →
      0 < max p.response.length e.response.length ∧
      ∃ m : DialogueMetrics, dialogue_evaluate p e = some m ∧
        m.lengthQuotient = ((min p.response.length e.response.length : ℚ)) /
          ((max p.response.length e.response.length : ℚ))) ∧
    (p.response = "" → e.response = "" →
      max p.response.length e.response.length = 0 ∧ dialogue_evaluate p e = none) := by
  constructor
  · intro h
    have hmax : 0 < max p.response.length e.response.length := by
      rcases h with h | h
      · have : p.response.length ≠ 0 := fun hz => h (strLength_eq_zero hz)
        omega
      · have : e.response.length ≠ 0 := fun hz => h (strLength_eq_zero hz)
        omega
    refine ⟨hmax, ?_⟩
    unfold dialogue_evaluate
    rw [if_neg (by omega)]
    exact ⟨_, rfl, rfl⟩
  · intro h1 h2
    have l1 : p.response.length = 0 := by rw [h1]; rfl
    have l2 : e.response.length = 0 := by rw [h2]; rfl
    refine ⟨by omega, ?_⟩
    unfold dialogue_evaluate
    rw [if_pos (by omega)]

/-- Witness for C10: a non-empty predicted response and an empty expected
response give divisor 5 and ratio 0. -/
theorem C10_witness :
    0 < max ("hello" : String).length ("" : String).length ∧
    ∃ m : DialogueMetrics,
      dialogue_evaluate ⟨"hello", 1/2, false⟩ ⟨"", 1/2, false⟩ = some m ∧
      m.lengthQuotient = ((min ("hello" : String).length ("" : String).length : ℚ)) /
        ((max ("hello" : String).length ("" : String).length : ℚ)) :=
  (C10_dialogue_length_divisor ⟨"hello", 1/2, false⟩ ⟨"", 1/2, false⟩).1
    (Or.inl (by decide))

/-! ## C8: heuristic label extraction -/

theorem extract_label_loop_mem {tl : List Char} {ls : List String} {m : String}
    (h : extract_label_loop tl ls = some m) : m ∈ ls := by
  induction ls with
  | nil => simp [extract_label_loop] at h
  | cons l ls ih =>
    by_cases hc : occursIn (lowerStr l.data) tl = true
    · rw [extract_label_loop, if_pos hc] at h
      simp at h
      simp [h]
    · rw [extract_label_loop, if_neg hc] at h
      exact List.mem_cons_of_mem _ (ih h)

theorem extract_label_loop_none {tl : List Char} {ls : List String} :
    extract_label_loop tl ls = none ↔
      ∀ l ∈ ls, occursIn (lowerStr l.data) tl = false := by
  induction ls with
  | nil => simp [extract_label_loop]
  | cons l ls ih =>
    by_cases hc : occursIn (lowerStr l.data) tl = true
    · rw [extract_label_loop, if_pos hc]
      simp [hc]
    · rw [extract_label_loop, if_neg hc]
      simp only [Bool.not_eq_true] at hc
      simp [ih, hc]

theorem extract_label_loop_first {tl : List Char} {l : String} (pre post : List String)
    (hpre : ∀ p ∈ pre, occursIn (lowerStr p.data) tl = false)
    (hl : occursIn (lowerStr l.data) tl = true) :
    extract_label_loop tl (pre ++ l :: post) = some l := by
  induction pre with
  | nil => simp [extract_label_loop, hl]
  | cons p pre ih =>
    have hp := hpre p (by simp)
    rw [List.cons_append, extract_label_loop, if_neg (by simp [hp])]
    exact ih (fun q hq => hpre q (by simp [hq]))

/-- C8: for every model response text and non-empty supplied label set, the
heuristic fallback returns the first label whose lower-cased form occurs in
the lower-cased response; if no label occurs it returns the first label of
the set; it always returns a member of the set and never raises. -/
theorem C8_heuristic_label_fallback (text : String) (labels : List String)
    (h : labels ≠ []) :
    extract_label_from_text text (some labels) ∈ labels ∧
    (∀ pre l post, labels = pre ++ l :: post →
      (∀ p ∈ pre, occursIn (lowerStr p.data) (lowerStr text.data) = false) →
      occursIn (lowerStr l.data) (lowerStr text.data) = true →
      extract_label_from_text text (some labels) = l) ∧
    ((∀ l ∈ labels, occursIn (lowerStr l.data) (lowerStr text.data) = false) →
      extract_label_from_text text (some labels) = labels.head h) := by
  obtain ⟨l0, ls0, rfl⟩ := List.exists_cons_of_ne_nil h
  refine ⟨?_, ?_, ?_⟩
  · unfold extract_label_from_text
    cases hloop : extract_label_loop (lowerStr text.data) (l0 :: ls0) with
    | some m =>
      simp only [hloop]
      simpa using extract_label_loop_mem hloop
    | none => simp only [hloop]; simp
  · intro pre l post heq hpre hl
    have hloop : extract_label_loop (lowerStr text.data) (l0 :: ls0) = some l := by
      rw [heq]; exact extract_label_loop_first pre post hpre hl
    unfold extract_label_from_text
    simp only [hloop]
  · intro hnone
    have hloop : extract_label_loop (lowerStr text.data) (l0 :: ls0) = none :=
      extract_label_loop_none.mpr hnone
    unfold extract_label_from_text
    simp only [hloop]
    simp

/-- Witness for C8: with labels `["neutral", "positive"]` and a response
containing "Positive", the second label is returned; with a response
containing no label, the first label is returned. -/
theorem C8_witness :
    extract_label_from_text "It is Positive." (some ["neutral", "positive"]) = "positive" ∧
    extract_label_from_text "no match here" (some ["alpha", "beta"]) = "alpha" :=
  ⟨(C8_heuristic_label_fallback "It is Positive." ["neutral", "positive"]
      (by decide)).2.1 ["neutral"] "positive" [] rfl (by decide) (by decide),
   (C8_heuristic_label_fallback "no match here" ["alpha", "beta"]
      (by decide)).2.2 (by decide)⟩

/-! ## C3: retrieval ordering -/

/-- C3 counterexample: two documents with equal relevance scores come back
from the semantic path in descending source-index order, because
`np.argsort(...)[::-1]` reverses the ascending-stable order; the claim's
ascending tie-break fails. -/
theorem C3_counterexample :
    (semantic_retrieval ["d0", "d1"] [1/2, 1/2] 2).map (·.index) = [1, 0] ∧
    (semantic_retrieval ["d0", "d1"] [1/2, 1/2] 2).map (·.score) = [1/2, 1/2] := by
  have h : argsortAsc [1/2, 1/2] = [0, 1] := by
    simp [argsortAsc, List.mergeSort, List.enum, List.enumFrom]
  unfold semantic_retrieval
  rw [h]
  norm_num

theorem stable_desc_sort_pairwise (tri : List (Nat × ℚ × String))
    (htri : ∀ i (h : i < tri.length), (tri.get ⟨i, h⟩).1 = i) :
    (tri.mergeSort (fun x y => decide (y.2.1 ≤ x.2.1))).Pairwise
      (fun x y => y.2.1 < x.2.1 ∨ (x.2.1 = y.2.1 ∧ x.1 < y.1)) := by
  have trans : ∀ a b c : Nat × ℚ × String,
      (fun x y => decide (y.2.1 ≤ x.2.1)) a b → (fun x y => decide (y.2.1 ≤ x.2.1)) b c →
      (fun x y => decide (y.2.1 ≤ x.2.1)) a c := by
    intro a b c hab hbc
    simp only [decide_eq_true_eq] at *
    exact le_trans hbc hab
  have total : ∀ a b : Nat × ℚ × String,
      ((fun x y => decide (y.2.1 ≤ x.2.1)) a b || (fun x y => decide (y.2.1 ≤ x.2.1)) b a) := by
    intro a b
    simp only [Bool.or_eq_true, decide_eq_true_eq]
    exact le_total _ _
  have hsorted := List.sorted_mergeSort
    (fun a b c => List.enumLE_trans trans a b c)
    (fun a b => List.enumLE_total total a b) tri.enum
  have hmain : (List.mergeSort tri.enum
        (List.enumLE (fun x y => decide (y.2.1 ≤ x.2.1)))).map (fun p => p.2) =
      List.mergeSort tri (fun x y => decide (y.2.1 ≤ x.2.1)) :=
    List.mergeSort_enum
  have hget : ∀ q ∈ tri.enum.mergeSort
      (List.enumLE (fun x y => decide (y.2.1 ≤ x.2.1))),
      ∃ h : q.1 < tri.length, tri.get ⟨q.1, h⟩ = q.2 := by
    intro q hq
    have hq2 : q ∈ tri.enum := List.mem_mergeSort.mp hq
    have h3 := List.mem_enum_iff_getElem?.mp hq2
    obtain ⟨hlt, hgetl⟩ := List.getElem?_eq_some.mp h3
    exact ⟨hlt, by simp [hgetl]⟩
  have hnd : (tri.enum.mergeSort
      (List.enumLE (fun x y => decide (y.2.1 ≤ x.2.1)))).Nodup := by
    have h1 : tri.enum.Nodup :=
      List.Nodup.of_map Prod.fst (by rw [List.enum_map_fst]; exact List.nodup_range _)
    exact ((List.mergeSort_perm tri.enum _).nodup_iff).mpr h1
  have hcomb := hsorted.and hnd
  rw [← hmain]
  refine List.pairwise_map.mpr ?_
  refine List.Pairwise.imp_of_mem ?_ hcomb
  intro u v hu hv huv
  obtain ⟨huv, hne⟩ := huv
  obtain ⟨hult, hu2⟩ := hget u hu
  obtain ⟨hvlt, hv2⟩ := hget v hv
  have hu1 : u.2.1 = u.1 := by rw [← hu2]; exact htri u.1 hult
  have hv1 : v.2.1 = v.1 := by rw [← hv2]; exact htri v.1 hvlt
  simp only [List.enumLE] at huv
  by_cases h1 : v.2.2.1 ≤ u.2.2.1
  · by_cases h2 : u.2.2.1 ≤ v.2.2.1
    · -- equal scores: stability gives index order
      have heq : u.2.2.1 = v.2.2.1 := le_antisymm h2 h1
      rw [if_pos (by simpa using h1), if_pos (by simpa using h2)] at huv
      have hle : u.1 ≤ v.1 := by simpa using huv
      have hneidx : u.1 ≠ v.1 := by
        intro hid
        apply hne
        have : u.2 = v.2 := by
          rw [← hu2, ← hv2]
          congr 1
          exact Fin.ext hid
        exact Prod.ext hid this
      right
      refine ⟨heq, ?_⟩
      rw [hu1, hv1]
      omega
    · left
      exact lt_of_not_le h2
  · -- le u.2 v.2 is false, so enumLE is false: contradiction
    rw [if_neg (by simpa using h1)] at huv
    exact absurd huv (by simp)

/-- C3 (amended): both retrieval paths return at most `min(k, |documents|)`
passages with non-increasing scores; the keyword path breaks ties by
ascending source index, while the semantic path breaks ties by descending
source index. -/
theorem C3_retrieval_order (query : String) (documents : List String) (top_k : Nat)
    (sims : List ℚ) (hs : sims.length = documents.length) :
    (keyword_based_retrieval query documents top_k).length ≤ min top_k documents.length ∧
    (keyword_based_retrieval query documents top_k).Pairwise
      (fun x y => y.score < x.score ∨ (x.score = y.score ∧ x.index < y.index)) ∧
    (semantic_retrieval documents sims top_k).length ≤ min top_k documents.length ∧
    (semantic_retrieval documents sims top_k).Pairwise
      (fun x y => y.score < x.score ∨ (x.score = y.score ∧ y.index < x.index)) := by
  refine ⟨?_, ?_, ?_, ?_⟩
  · unfold keyword_based_retrieval
    simp
  · unfold keyword_based_retrieval
    refine List.pairwise_map.mpr (List.Pairwise.sublist (List.take_sublist _ _) ?_)
    refine stable_desc_sort_pairwise _ ?_
    intro i hlt
    simp [List.get_eq_getElem]
  · unfold semantic_retrieval argsortAsc
    simp [hs]
  · unfold semantic_retrieval argsortAsc
    rw [← List.map_reverse, ← List.map_take, List.map_map]
    have trans2 : ∀ a b c : Nat × ℚ,
        (fun x y => decide (x.2 < y.2 ∨ (x.2 = y.2 ∧ x.1 ≤ y.1))) a b →
        (fun x y => decide (x.2 < y.2 ∨ (x.2 = y.2 ∧ x.1 ≤ y.1))) b c →
        (fun x y => decide (x.2 < y.2 ∨ (x.2 = y.2 ∧ x.1 ≤ y.1))) a c := by
      intro a b c hab hbc
      simp only [decide_eq_true_eq] at *
      rcases hab with h1 | ⟨h1, h1i⟩ <;> rcases hbc with h2 | ⟨h2, h2i⟩
      · exact Or.inl (lt_trans h1 h2)
      · exact Or.inl (h2 ▸ h1)
      · exact Or.inl (h1 ▸ h2)
      · exact Or.inr ⟨h1.trans h2, le_trans h1i h2i⟩
    have total2 : ∀ a b : Nat × ℚ,
        ((fun x y => decide (x.2 < y.2 ∨ (x.2 = y.2 ∧ x.1 ≤ y.1))) a b ||
         (fun x y => decide (x.2 < y.2 ∨ (x.2 = y.2 ∧ x.1 ≤ y.1))) b a) := by
      intro a b
      simp only [Bool.or_eq_true, decide_eq_true_eq]
      rcases lt_trichotomy a.2 b.2 with h | h | h
      · exact Or.inl (Or.inl h)
      · rcases Nat.le_total a.1 b.1 with hi | hi
        · exact Or.inl (Or.inr ⟨h, hi⟩)
        · exact Or.inr (Or.inr ⟨h.symm, hi⟩)
      · exact Or.inr (Or.inl h)
    have hsorted := List.sorted_mergeSort trans2 total2 sims.enum
    have hnd : (sims.enum.mergeSort
        (fun x y => decide (x.2 < y.2 ∨ (x.2 = y.2 ∧ x.1 ≤ y.1)))).Nodup := by
      have h1 : sims.enum.Nodup :=
        List.Nodup.of_map Prod.fst (by rw [List.enum_map_fst]; exact List.nodup_range _)
      exact ((List.mergeSort_perm sims.enum _).nodup_iff).mpr h1
    have hrev : (sims.enum.mergeSort
        (fun x y => decide (x.2 < y.2 ∨ (x.2 = y.2 ∧ x.1 ≤ y.1)))).reverse.Pairwise
        (fun u v => (decide (v.2 < u.2 ∨ (v.2 = u.2 ∧ v.1 ≤ u.1)) = true) ∧ u ≠ v) := by
      rw [List.pairwise_reverse]
      exact (hsorted.and hnd).imp (fun h => ⟨h.1, Ne.symm h.2⟩)
    refine List.pairwise_map.mpr (List.Pairwise.sublist (List.take_sublist _ _) ?_)
    refine List.Pairwise.imp_of_mem ?_ hrev
    intro u v hu hv huv
    obtain ⟨huv, hne⟩ := huv
    have hu2 : sims[u.1]? = some u.2 :=
      List.mem_enum_iff_getElem?.mp (List.mem_mergeSort.mp (List.mem_reverse.mp hu))
    have hv2 : sims[v.1]? = some v.2 :=
      List.mem_enum_iff_getElem?.mp (List.mem_mergeSort.mp (List.mem_reverse.mp hv))
    have hgu : sims.getD u.1 0 = u.2 := by simp [List.getD_eq_getElem?_getD, hu2]
    have hgv : sims.getD v.1 0 = v.2 := by simp [List.getD_eq_getElem?_getD, hv2]
    simp only [decide_eq_true_eq] at huv
    show sims.getD v.1 0 < sims.getD u.1 0 ∨
      (sims.getD u.1 0 = sims.getD v.1 0 ∧ v.1 < u.1)
    rw [hgu, hgv]
    have hneidx : u.1 ≠ v.1 := by
      intro hid
      apply hne
      have h2 : u.2 = v.2 := by
        have := hu2
        rw [hid, hv2] at this
        exact (Option.some_inj.mp this).symm
      exact Prod.ext hid h2
    rcases huv with h | ⟨h, hi⟩
    · exact Or.inl h
    · exact Or.inr ⟨h.symm, by omega⟩


/-- Witness for C3 at a concrete query, document pair and similarity
vector. -/
theorem C3_order_witness :
    (keyword_based_retrieval "q" ["a", "b"] 1).length ≤
      min 1 (["a", "b"] : List String).length ∧
    (keyword_based_retrieval "q" ["a", "b"] 1).Pairwise
      (fun x y => y.score < x.score ∨ (x.score = y.score ∧ x.index < y.index)) ∧
    (semantic_retrieval ["a", "b"] [1/3, 2/3] 1).length ≤
      min 1 (["a", "b"] : List String).length ∧
    (semantic_retrieval ["a", "b"] [1/3, 2/3] 1).Pairwise
      (fun x y => y.score < x.score ∨ (x.score = y.score ∧ y.index < x.index)) :=
  C3_retrieval_order "q" ["a", "b"] 1 [1/3, 2/3] rfl

/-! ## C5: RAG answer confidence -/

/-- C5 counterexample: the mock generation path returns the random draw
(here 0.9, inside its [0.6, 0.9] range) as confidence when a passage was
retrieved, not the 0.6·mean + 0.4·min(1, len/200) formula. -/
theorem C5_counterexample :
    (generate_mock_rag "q" [⟨"d", 1, 0⟩] (9/10)).confidence = 9/10 ∧
    calculate_answer_confidence (generate_mock_rag "q" [⟨"d", 1, 0⟩] (9/10)).answer
      [⟨"d", 1, 0⟩] ≠ 9/10 := by
  constructor
  · rfl
  · have h1 : ("基于检索到的文档，关于'" : String).length = 12 := rfl
    have h2 : ("'的答案是：" : String).length = 6 := rfl
    have h3 : ("..." : String).length = 3 := rfl
    have h4 : ("q" : String).length = 1 := rfl
    norm_num [generate_mock_rag, calculate_answer_confidence, h1, h2, h3, h4]

/-- C5 (amended): the OpenAI and Anthropic generation paths compute the
answer confidence as 0.6 × mean(passage scores) + 0.4 × min(1, answer length
/ 200) clamped to [0.1, 0.95]; every path returns exactly 0.3 when no
passage was retrieved; but the mock path returns its uniform draw from
[0.6, 0.9] untouched when at least one passage exists. -/
theorem C5_answer_confidence (answer query : String) (docs : List RetrievedDoc)
    (runif : ℚ) :
    (generate_openai_rag answer docs).confidence =
      calculate_answer_confidence answer docs ∧
    (generate_anthropic_rag answer docs).confidence =
      calculate_answer_confidence answer docs ∧
    (docs = [] →
      calculate_answer_confidence answer docs = 3/10 ∧
      (generate_mock_rag query docs runif).confidence = 3/10) ∧
    (docs ≠ [] →
      calculate_answer_confidence answer docs =
        pyClamp (1/10) (95/100)
          (((docs.map (·.score)).sum / (docs.length : ℚ)) * (6/10) +
            min 1 ((answer.length : ℚ) / 200) * (4/10)) ∧
      (generate_mock_rag query docs runif).confidence = runif) := by
  refine ⟨rfl, rfl, ?_, ?_⟩
  · rintro rfl
    exact ⟨rfl, rfl⟩
  · intro hne
    constructor
    · unfold calculate_answer_confidence pyClamp
      rw [if_neg hne]
    · cases docs with
      | nil => exact absurd rfl hne
      | cons d ds => rfl

/-- Witness for C5 with one retrieved passage and with none. -/
theorem C5_answer_confidence_witness :
    (generate_openai_rag "ans" [⟨"d", 1, 0⟩]).confidence =
      calculate_answer_confidence "ans" [⟨"d", 1, 0⟩] ∧
    (generate_mock_rag "q" [] (7/10)).confidence = 3/10 ∧
    (generate_mock_rag "q" [⟨"d", 1, 0⟩] (7/10)).confidence = 7/10 :=
  ⟨(C5_answer_confidence "ans" "q" [⟨"d", 1, 0⟩] (7/10)).1,
   ((C5_answer_confidence "ans" "q" [] (7/10)).2.2.1 rfl).2,
   ((C5_answer_confidence "ans" "q" [⟨"d", 1, 0⟩] (7/10)).2.2.2 (by simp)).2⟩

/-! ## C1, C6, C7: the tool-invocation loop -/

theorem runToolCalls_eq_filterMap (tools : Option (List String))
    (calls : List ToolCall) :
    runToolCalls tools calls = calls.filterMap (fun c =>
      match c.toolName with
      | some name =>
        if tool_permitted tools name then
          some ⟨name, c.toolArgs, callTool name c.toolArgs⟩
        else none
      | none => none) := by
  suffices h : ∀ (cs : List ToolCall) (acc : List ActionRecord),
      cs.foldl (fun acc c =>
        match c.toolName with
        | some name =>
          if tool_permitted tools name then
            acc ++ [⟨name, c.toolArgs, callTool name c.toolArgs⟩]
          else acc
        | none => acc) acc =
      acc ++ cs.filterMap (fun c =>
        match c.toolName with
        | some name =>
          if tool_permitted tools name then
            some ⟨name, c.toolArgs, callTool name c.toolArgs⟩
          else none
        | none => none) by
    simpa using h calls []
  intro cs
  induction cs with
  | nil => intro acc; simp
  | cons c cs ih =>
    intro acc
    cases hc : c.toolName with
    | some name =>
      by_cases hp : tool_permitted tools name = true
      · simp [hc, hp, ih]
      · simp [hc, hp, ih]
    | none => simp [hc, ih]

/-- C6: an exception raised by one tool is caught and recorded as a failed
record carrying the error's message, and every call after it in the same
invocation still executes and contributes its record unchanged. -/
theorem C6_tool_failure_isolation (tools : Option (List String))
    (pre post : List ToolCall) (c : ToolCall) (name err : String)
    (hname : c.toolName = some name)
    (hperm : tool_permitted tools name = true)
    (herr : callTool name c.toolArgs = .error err) :
    runToolCalls tools (pre ++ c :: post) =
      runToolCalls tools pre ++
        ActionRecord.mk name c.toolArgs (Except.error err) :: runToolCalls tools post := by
  simp [runToolCalls_eq_filterMap, List.filterMap_append, List.filterMap_cons, hname,
    hperm, herr]

/-- Agreement of the full loop with its non-raising restriction: on
dict-shaped calls none of which aborts, `runAgentCalls` returns exactly the
records of `runToolCalls`. -/
theorem runAgentCalls_eq_runToolCalls (tools : Option (List String))
    (calls : List ToolCall) (h : ∀ c ∈ calls, c.aborts = false) :
    runAgentCalls tools (calls.map (fun c => JVal.obj c.fields)) =
      .ok (runToolCalls tools calls) := by
  suffices hgen : ∀ (cs : List ToolCall) (acc : List ActionRecord),
      (∀ c ∈ cs, c.aborts = false) →
      runAgentLoopGo tools (cs.map (fun c => JVal.obj c.fields)) acc =
        .ok (cs.foldl (fun acc c =>
          match c.toolName with
          | some name =>
            if tool_permitted tools name then
              acc ++ [⟨name, c.toolArgs, callTool name c.toolArgs⟩]
            else acc
          | none => acc) acc) by
    exact hgen calls [] h
  intro cs
  induction cs with
  | nil =>
    intro acc hcs
    rfl
  | cons c cs ih =>
    intro acc hcs
    have hc := hcs c (List.mem_cons_self c cs)
    have htail : ∀ x ∈ cs, x.aborts = false := fun x hx => hcs x (List.mem_cons_of_mem c hx)
    rcases hget : c.fields.get "tool" with _ | v
    · have hn : c.toolName = none := by simp [ToolCall.toolName, hget]
      simp only [List.map_cons, List.foldl_cons, runAgentLoopGo, hget, hn]
      exact ih acc htail
    · rcases v with s | tok | b | _ | xs | fs
      · have hn : c.toolName = some s := by simp [ToolCall.toolName, hget]
        simp only [List.map_cons, List.foldl_cons, runAgentLoopGo, hget, hn]
        by_cases hp : tool_permitted tools s = true
        · rw [if_pos hp, if_pos hp]
          exact ih (acc ++ [⟨s, c.toolArgs, callTool s c.toolArgs⟩]) htail
        · rw [if_neg hp, if_neg hp]
          exact ih acc htail
      · have hn : c.toolName = none := by simp [ToolCall.toolName, hget]
        simp only [List.map_cons, List.foldl_cons, runAgentLoopGo, hget, hn]
        exact ih acc htail
      · have hn : c.toolName = none := by simp [ToolCall.toolName, hget]
        simp only [List.map_cons, List.foldl_cons, runAgentLoopGo, hget, hn]
        exact ih acc htail
      · have hn : c.toolName = none := by simp [ToolCall.toolName, hget]
        simp only [List.map_cons, List.foldl_cons, runAgentLoopGo, hget, hn]
        exact ih acc htail
      · simp [ToolCall.aborts, hget] at hc
      · simp [ToolCall.aborts, hget] at hc

/-- Witness for C6: a `web_search` call with a bad keyword binding fails and
is recorded with the raised message, while the following `text_analyzer`
call still runs successfully. -/
theorem C6_witness :
    runToolCalls none
      [⟨JObj.ofList [("tool", .str "web_search"), ("args", jobj [("oops", .str "1")])]⟩,
       ⟨JObj.ofList [("tool", .str "text_analyzer"), ("args", jobj [("text", .str "hi")])]⟩] =
      [⟨"web_search", jobj [("oops", .str "1")], .error (typeErrMsg "web_search")⟩,
       ⟨"text_analyzer", jobj [("text", .str "hi")], .ok (textAnalyzerBody "hi")⟩] := by
  rw [show ([⟨JObj.ofList [("tool", .str "web_search"), ("args", jobj [("oops", .str "1")])]⟩,
       ⟨JObj.ofList [("tool", .str "text_analyzer"), ("args", jobj [("text", .str "hi")])]⟩] :
        List ToolCall) =
      [] ++ ⟨JObj.ofList [("tool", .str "web_search"), ("args", jobj [("oops", .str "1")])]⟩ ::
        [⟨JObj.ofList [("tool", .str "text_analyzer"), ("args", jobj [("text", .str "hi")])]⟩]
      from rfl,
    C6_tool_failure_isolation none []
      [⟨JObj.ofList [("tool", .str "text_analyzer"), ("args", jobj [("text", .str "hi")])]⟩]
      ⟨JObj.ofList [("tool", .str "web_search"), ("args", jobj [("oops", .str "1")])]⟩
      "web_search" (typeErrMsg "web_search") rfl rfl rfl]
  rfl

/-- C7 counterexample: with the empty allow-list (`tools = []`, falsy in
Python), a registry call outside that allow-list is still executed and
recorded, so the claim's "dropped whenever outside the supplied allow-list"
fails for the empty allow-list. -/
theorem C7_counterexample :
    runToolCalls (some [])
        [⟨JObj.ofList [("tool", .str "web_search"), ("args", jobj [("query", .str "x")])]⟩] =
      [⟨"web_search", jobj [("query", .str "x")],
        .ok "搜索 'x' 的结果：找到 5 个相关结果（模拟数据）"⟩] := rfl

/-- C7 (amended): a parsed call naming a tool outside the registry, or
outside a non-empty caller-supplied allow-list, is silently dropped — not
executed, no record appended, the surrounding records unchanged; an empty
allow-list behaves exactly like an absent one. -/
theorem C7_unknown_tool_dropped (tools : Option (List String))
    (pre post : List ToolCall) (c : ToolCall)
    (h : ∀ name, c.toolName = some name →
      name ∉ available_tool_names ∨ ∃ l, tools = some l ∧ l ≠ [] ∧ name ∉ l) :
    runToolCalls tools (pre ++ c :: post) = runToolCalls tools (pre ++ post) ∧
    ∀ calls : List ToolCall, runToolCalls (some []) calls = runToolCalls none calls := by
  constructor
  · simp only [runToolCalls_eq_filterMap, List.filterMap_append, List.filterMap_cons]
    cases hc : c.toolName with
    | none => simp
    | some name =>
      have hperm : tool_permitted tools name = false := by
        rcases h name hc with hn | ⟨l, hl, hlne, hnin⟩
        · simp [tool_permitted, hn]
        · subst hl
          simp [tool_permitted, hnin, hlne]
      simp [hperm]
  · intro calls
    simp only [runToolCalls_eq_filterMap]
    congr 1

/-- Witness for C7: a `web_search` call outside the non-empty allow-list
`["calculator"]` leaves the record list exactly as if it were absent. -/
theorem C7_witness :
    runToolCalls (some ["calculator"])
        ([] ++ (⟨JObj.ofList [("tool", .str "web_search")]⟩ : ToolCall) ::
          [⟨JObj.ofList [("tool", .str "calculator"), ("args", jobj [("expression", .str "2+2")])]⟩]) =
      runToolCalls (some ["calculator"])
        ([] ++ [⟨JObj.ofList [("tool", .str "calculator"), ("args", jobj [("expression", .str "2+2")])]⟩]) := by
  refine (C7_unknown_tool_dropped (some ["calculator"]) []
    [⟨JObj.ofList [("tool", .str "calculator"), ("args", jobj [("expression", .str "2+2")])]⟩]
    ⟨JObj.ofList [("tool", .str "web_search")]⟩ ?_).1
  intro name hn
  have h2 : (⟨JObj.ofList [("tool", .str "web_search")]⟩ : ToolCall).toolName =
      some "web_search" := rfl
  rw [h2] at hn
  have h3 : name = "web_search" := (Option.some_inj.mp hn).symm
  subst h3
  exact Or.inr ⟨["calculator"], rfl, by decide, by decide⟩

/-- C1 counterexample: the Anthropic path produces a tool-execution record
from the Planning response below, yet issues no second round — the final
result is the Planning response itself, not the would-be second-round
response "FINAL". -/
theorem C1_counterexample :
    (∃ out, execute_anthropic
      (fun n => if n = 0 then
        "[TOOL_CALL]\x7b\"tool\": \"text_analyzer\", \"args\": \x7b\"text\": \"hi\"\x7d\x7d[/TOOL_CALL]"
      else "FINAL") none = .ok out ∧
      out.actions_taken ≠ [] ∧
      out.result =
        "[TOOL_CALL]\x7b\"tool\": \"text_analyzer\", \"args\": \x7b\"text\": \"hi\"\x7d\x7d[/TOOL_CALL]") ∧
    ("[TOOL_CALL]\x7b\"tool\": \"text_analyzer\", \"args\": \x7b\"text\": \"hi\"\x7d\x7d[/TOOL_CALL]" : String) ≠
      "FINAL" := by
  refine ⟨⟨⟨_, _, _⟩, rfl, by decide, rfl⟩, by decide⟩

/-- C1 (amended): on both provider paths, whenever the parsed calls run
without raising, the OpenAI path issues a second provider round and returns
its response exactly when at least one record was produced, and returns the
Planning response verbatim when no record was produced (in particular when
every parsed call was dropped); the Anthropic path never issues a second
round — its result is always the Planning response.  When the loop raises
(a non-dict parsed call, or an unhashable `tool` value), both paths
re-raise and produce no output. -/
theorem C1_synthesis_rounds (provider : Nat → String) (tools : Option (List String)) :
    (∀ records, runAgentCalls tools (parse_tool_calls (provider 0).data) = .ok records →
      (∃ out, execute_openai provider tools = .ok out ∧
        out.actions_taken = records ∧
        out.result = if records = [] then provider 0 else provider 1) ∧
      (∃ out, execute_anthropic provider tools = .ok out ∧
        out.actions_taken = records ∧ out.result = provider 0)) ∧
    (∀ e, runAgentCalls tools (parse_tool_calls (provider 0).data) = .error e →
      execute_openai provider tools = .error ("OpenAI Agent执行失败: " ++ e) ∧
      execute_anthropic provider tools = .error ("Anthropic Agent执行失败: " ++ e)) := by
  constructor
  · intro records h
    constructor
    · refine ⟨⟨if records ≠ [] then provider 1 else provider 0, records,
        calculate_confidence (if records ≠ [] then provider 1 else provider 0) records⟩,
        ?_, rfl, ?_⟩
      · simp only [execute_openai]
        rw [h]
      · show (if records ≠ [] then provider 1 else provider 0) =
          if records = [] then provider 0 else provider 1
        by_cases hr : records = []
        · simp [hr]
        · simp [hr]
    · refine ⟨⟨provider 0, records, calculate_confidence (provider 0) records⟩, ?_, rfl, rfl⟩
      simp only [execute_anthropic]
      rw [h]
  · intro e h
    constructor
    · simp only [execute_openai]
      rw [h]
    · simp only [execute_anthropic]
      rw [h]

/-- Witness for C1: a Planning response whose only call binds a non-string
`text` value produces a failed record, so the second round's response
becomes the result; a Planning response whose only parsed call names an
unknown tool produces no record and is returned verbatim although a call
was parsed. -/
theorem C1_witness :
    (∃ out, execute_openai
        (fun n => if n = 0 then
          "[TOOL_CALL]\x7b\"tool\": \"text_analyzer\", \"args\": \x7b\"text\": 5\x7d\x7d[/TOOL_CALL]"
        else "FINAL") none = .ok out ∧ out.actions_taken ≠ [] ∧ out.result = "FINAL") ∧
    (∃ out, execute_openai
        (fun n => if n = 0 then "[TOOL_CALL]\x7b\"tool\": \"mystery\"\x7d[/TOOL_CALL]"
        else "FINAL") none = .ok out ∧ out.actions_taken = [] ∧
        out.result = "[TOOL_CALL]\x7b\"tool\": \"mystery\"\x7d[/TOOL_CALL]") ∧
    parse_tool_calls "[TOOL_CALL]\x7b\"tool\": \"mystery\"\x7d[/TOOL_CALL]".data ≠ [] := by
  have h1 := ((C1_synthesis_rounds
      (fun n => if n = 0 then
        "[TOOL_CALL]\x7b\"tool\": \"text_analyzer\", \"args\": \x7b\"text\": 5\x7d\x7d[/TOOL_CALL]"
      else "FINAL") none).1
    [⟨"text_analyzer", jobj [("text", JVal.num "5")], .error attrErrMsg⟩] (by decide)).1
  obtain ⟨out1, hok1, hacts1, hres1⟩ := h1
  have h2 := ((C1_synthesis_rounds
      (fun n => if n = 0 then "[TOOL_CALL]\x7b\"tool\": \"mystery\"\x7d[/TOOL_CALL]"
      else "FINAL") none).1 [] (by decide)).1
  obtain ⟨out2, hok2, hacts2, hres2⟩ := h2
  refine ⟨⟨out1, hok1, ?_, ?_⟩, ⟨out2, hok2, hacts2, ?_⟩, by decide⟩
  · rw [hacts1]
    decide
  · rw [hres1, if_neg (by decide)]
    rfl
  · rw [hres2, if_pos rfl]
    rfl

/-! ## C2: the SequenceMatcher development -/

namespace SeqMatcher

theorem mem_occIdx {b : List Char} {c : Char} {j : Nat} :
    j ∈ occIdx b c ↔ j < b.length ∧ b.getD j ' ' = c := by
  simp [occIdx, List.mem_filter, List.mem_range]

theorem occIdx_pairwise (b : List Char) (c : Char) :
    (occIdx b c).Pairwise (· < ·) :=
  (List.pairwise_lt_range _).filter _

theorem mem_b2j {b : List Char} {c : Char} {j : Nat} (h : j ∈ b2j b c) :
    j < b.length ∧ b.getD j ' ' = c ∧ popularChar b c = false := by
  unfold b2j at h
  by_cases hp : popularChar b c = true
  · rw [if_pos hp] at h
    cases h
  · rw [if_neg hp] at h
    have h2 := mem_occIdx.mp h
    exact ⟨h2.1, h2.2, by simpa using hp⟩

theorem b2j_pairwise (b : List Char) (c : Char) : (b2j b c).Pairwise (· < ·) := by
  unfold b2j
  split
  · exact List.Pairwise.nil
  · exact occIdx_pairwise b c

theorem runlen_le (s : List Char) (r : Nat) : runlen s r ≤ r + 1 := by
  induction r with
  | zero => simp only [runlen]; split <;> omega
  | succ r ih => simp only [runlen]; split <;> omega

theorem runlen_pos {s : List Char} {r : Nat}
    (h : popularChar s (s.getD r ' ') = false) : 1 ≤ runlen s r := by
  cases r with
  | zero => simp only [runlen, h, Bool.false_eq_true, if_false]; omega
  | succ r => simp only [runlen, h, Bool.false_eq_true, if_false]; omega

theorem runlen_succ {s : List Char} {j : Nat} (hj : 1 ≤ j)
    (h : popularChar s (s.getD j ' ') = false) :
    runlen s j = runlen s (j - 1) + 1 := by
  cases j with
  | zero => omega
  | succ j =>
    simp only [runlen, h, Bool.false_eq_true, if_false, Nat.add_sub_cancel]

theorem extLeft_self (s : List Char) (i : Nat) :
    ∀ k, extLeft s s 0 0 i i k = (0, 0, k + i) := by
  induction i with
  | zero =>
    intro k
    simp [extLeft]
  | succ i ih =>
    intro k
    rw [extLeft]
    rw [if_pos ⟨Nat.succ_pos i, Nat.succ_pos i, rfl⟩]
    simp only [Nat.add_sub_cancel]
    rw [ih (k + 1)]
    refine Prod.ext rfl (Prod.ext rfl ?_)
    show k + 1 + i = k + (i + 1)
    omega

theorem extRight_self (s : List Char) :
    ∀ fuel k, fuel = s.length - k → k ≤ s.length →
    extRight s s s.length s.length 0 0 fuel k = s.length := by
  intro fuel
  induction fuel with
  | zero =>
    intro k h1 h2
    have hk : k = s.length := by omega
    rw [extRight, hk]
  | succ fuel ih =>
    intro k h1 h2
    have hk : k < s.length := by omega
    rw [extRight]
    rw [if_pos ⟨by omega, by omega, rfl⟩]
    exact ih (k + 1) (by omega) (by omega)

theorem runlen_popular {s : List Char} {r : Nat}
    (h : popularChar s (s.getD r ' ') = true) : runlen s r = 0 := by
  cases r <;> (simp only [runlen]; rw [h]; simp)

theorem rowStep_self_inv (s : List Char) (r : Nat) (hr : r < s.length)
    (st : FlmState) (h : DiagInv s r st) :
    DiagInv s (r + 1) (rowStep s s 0 s.length st r) := by
  obtain ⟨hD1, hD8, hD2, hD3, hD6, hD4⟩ := h
  unfold rowStep
  by_cases hpop : popularChar s (s.getD r ' ') = true
  · have hb : b2j s (s.getD r ' ') = [] := by unfold b2j; rw [if_pos hpop]
    rw [hb]
    simp only [List.filter_nil, List.foldl_nil]
    refine ⟨hD1, ?_, ?_, fun j => Nat.zero_le _, fun j => Nat.zero_le _, ?_⟩
    · show st.besti + st.bestsize ≤ r + 1
      omega
    · intro j hj
      rcases Nat.lt_succ_iff_lt_or_eq.mp hj with hj2 | hj2
      · exact hD2 j hj2
      · subst hj2
        rw [runlen_popular hpop]
        exact Nat.zero_le _
    · intro _
      show (0 : Nat) = runlen s (r + 1 - 1)
      simp only [Nat.add_sub_cancel]
      rw [runlen_popular hpop]
  · -- the non-popular case: the row's scan list is the full occurrence list
    have hpopf : popularChar s (s.getD r ' ') = false := by simpa using hpop
    have hb : b2j s (s.getD r ' ') = occIdx s (s.getD r ' ') := by
      unfold b2j; rw [if_neg hpop]
    rw [hb]
    have hfilter : (occIdx s (s.getD r ' ')).filter
        (fun j => decide (0 ≤ j ∧ j < s.length)) = occIdx s (s.getD r ' ') := by
      apply List.filter_eq_self.mpr
      intro j hj
      have := mem_occIdx.mp hj
      simp only [decide_eq_true_eq]
      omega
    rw [hfilter]
    have hrmem : r ∈ occIdx s (s.getD r ' ') := mem_occIdx.mpr ⟨hr, rfl⟩
    obtain ⟨js₁, js₂, hsplit⟩ := List.append_of_mem hrmem
    have hpair := occIdx_pairwise s (s.getD r ' ')
    rw [hsplit] at hpair
    have hpa := List.pairwise_append.mp hpair
    have hjs₁lt : ∀ j ∈ js₁, j < r := fun j hj => hpa.2.2 j hj r (by simp)
    have hjs₂gt : ∀ j ∈ js₂, r < j := (List.pairwise_cons.mp hpa.2.1).1
    have hjs₁c : ∀ j ∈ js₁, s.getD j ' ' = s.getD r ' ' := by
      intro j hj
      exact (mem_occIdx.mp (by rw [hsplit]; exact List.mem_append_left _ hj)).2
    have hjs₂c : ∀ j ∈ js₂, s.getD j ' ' = s.getD r ' ' := by
      intro j hj
      refine (mem_occIdx.mp ?_).2
      rw [hsplit]
      exact List.mem_append_right _ (List.mem_cons_of_mem _ hj)
    rw [hsplit, List.foldl_append, List.foldl_cons]
    -- Phase A: positions strictly left of the diagonal never update the best
    have phaseA : ∀ t : FlmState,
        (t.besti = st.besti ∧ t.bestj = st.bestj ∧ t.bestsize = st.bestsize ∧
          (∀ x, t.j2len x ≤ runlen s x) ∧ (∀ x, t.j2len x ≤ runlen s r) ∧
          t.j2len r = 0) →
        ∀ j ∈ js₁,
        ((innerStep st.j2len r t j).besti = st.besti ∧
          (innerStep st.j2len r t j).bestj = st.bestj ∧
          (innerStep st.j2len r t j).bestsize = st.bestsize ∧
          (∀ x, (innerStep st.j2len r t j).j2len x ≤ runlen s x) ∧
          (∀ x, (innerStep st.j2len r t j).j2len x ≤ runlen s r) ∧
          (innerStep st.j2len r t j).j2len r = 0) := by
      intro t ht j hj
      obtain ⟨ht1, ht2, ht3, ht4, ht5, ht6⟩ := ht
      have hjr : j < r := hjs₁lt j hj
      have hjc : s.getD j ' ' = s.getD r ' ' := hjs₁c j hj
      have hjpop : popularChar s (s.getD j ' ') = false := by rw [hjc]; exact hpopf
      have hkj : (if j = 0 then 0 else st.j2len (j - 1)) + 1 ≤ runlen s j := by
        by_cases hj0 : j = 0
        · subst hj0
          simp only [if_pos rfl]
          exact runlen_pos hjpop
        · rw [if_neg hj0]
          have h1 : st.j2len (j - 1) ≤ runlen s (j - 1) := hD3 _
          rw [runlen_succ (by omega) hjpop]
          omega
      have hkr : (if j = 0 then 0 else st.j2len (j - 1)) + 1 ≤ runlen s r := by
        by_cases hj0 : j = 0
        · subst hj0
          simp only [if_pos rfl]
          exact runlen_pos hpopf
        · rw [if_neg hj0]
          have h1 : st.j2len (j - 1) ≤ (if r = 0 then 0 else runlen s (r - 1)) := hD6 _
          rw [if_neg (by omega)] at h1
          rw [runlen_succ (by omega : 1 ≤ r) hpopf]
          omega
      have hno : ¬((if j = 0 then 0 else st.j2len (j - 1)) + 1 > t.bestsize) := by
        have : runlen s j ≤ st.bestsize := hD2 j hjr
        omega
      simp only [innerStep]
      rw [if_neg hno]
      refine ⟨ht1, ht2, ht3, ?_, ?_, ?_⟩
      · intro x
        by_cases hx : x = j
        · subst hx; simp only [if_pos rfl]; exact hkj
        · simp only [if_neg hx]; exact ht4 x
      · intro x
        by_cases hx : x = j
        · subst hx; simp only [if_pos rfl]; exact hkr
        · simp only [if_neg hx]; exact ht5 x
      · simp only [if_neg (by omega : ¬(r = j))]
        exact ht6
    have hA := List.foldlRecOn js₁ (innerStep st.j2len r)
      (⟨fun _ => 0, st.besti, st.bestj, st.bestsize⟩ : FlmState)
      (motive := fun t => t.besti = st.besti ∧ t.bestj = st.bestj ∧
        t.bestsize = st.bestsize ∧ (∀ x, t.j2len x ≤ runlen s x) ∧
        (∀ x, t.j2len x ≤ runlen s r) ∧ t.j2len r = 0)
      ⟨rfl, rfl, rfl, fun x => Nat.zero_le _, fun x => Nat.zero_le _, rfl⟩
      (fun t ht j hj => phaseA t ht j hj)
    set t1 := js₁.foldl (innerStep st.j2len r)
      (⟨fun _ => 0, st.besti, st.bestj, st.bestsize⟩ : FlmState) with ht1def
    obtain ⟨hA1, hA2, hA3, hA4, hA5, hA6⟩ := hA
    -- Phase B: the diagonal position j = r
    have hkr_eq : (if r = 0 then 0 else st.j2len (r - 1)) + 1 = runlen s r := by
      by_cases hr0 : r = 0
      · subst hr0
        simp only [if_pos rfl]
        simp only [runlen]
        rw [hpopf]
        simp
      · rw [if_neg hr0, hD4 hr0]
        rw [runlen_succ (by omega) hpopf]
    set t2 := innerStep st.j2len r t1 r with ht2def
    have hB : t2.besti = t2.bestj ∧ t2.besti + t2.bestsize ≤ r + 1 ∧
        st.bestsize ≤ t2.bestsize ∧ runlen s r ≤ t2.bestsize ∧
        (∀ x, t2.j2len x ≤ runlen s x) ∧ (∀ x, t2.j2len x ≤ runlen s r) ∧
        t2.j2len r = runlen s r := by
      rw [ht2def]
      simp only [innerStep]
      rw [hkr_eq]
      by_cases hgt : runlen s r > t1.bestsize
      · rw [if_pos hgt]
        have hle : runlen s r ≤ r + 1 := runlen_le s r
        refine ⟨rfl, ?_, ?_, ?_, ?_, ?_, ?_⟩
        · show r + 1 - runlen s r + runlen s r ≤ r + 1
          omega
        · show st.bestsize ≤ runlen s r
          rw [← hA3]
          omega
        · show runlen s r ≤ runlen s r
          exact le_refl _
        · intro x
          show (if x = r then runlen s r else t1.j2len x) ≤ runlen s x
          by_cases hx : x = r
          · subst hx; simp
          · rw [if_neg hx]; exact hA4 x
        · intro x
          show (if x = r then runlen s r else t1.j2len x) ≤ runlen s r
          by_cases hx : x = r
          · subst hx; simp
          · rw [if_neg hx]; exact hA5 x
        · show (if r = r then runlen s r else t1.j2len r) = runlen s r
          simp
      · rw [if_neg hgt]
        refine ⟨?_, ?_, ?_, ?_, ?_, ?_, ?_⟩
        · show t1.besti = t1.bestj
          rw [hA1, hA2, hD1]
        · show t1.besti + t1.bestsize ≤ r + 1
          rw [hA1, hA3]
          omega
        · show st.bestsize ≤ t1.bestsize
          rw [hA3]
        · show runlen s r ≤ t1.bestsize
          omega
        · intro x
          show (if x = r then runlen s r else t1.j2len x) ≤ runlen s x
          by_cases hx : x = r
          · subst hx; simp
          · rw [if_neg hx]; exact hA4 x
        · intro x
          show (if x = r then runlen s r else t1.j2len x) ≤ runlen s r
          by_cases hx : x = r
          · subst hx; simp
          · rw [if_neg hx]; exact hA5 x
        · show (if r = r then runlen s r else t1.j2len r) = runlen s r
          simp
    obtain ⟨hB1, hB2, hB3, hB4, hB5, hB6, hB7⟩ := hB
    -- Phase C: positions strictly right of the diagonal never update either
    have phaseC : ∀ t : FlmState,
        (t.besti = t2.besti ∧ t.bestj = t2.bestj ∧ t.bestsize = t2.bestsize ∧
          (∀ x, t.j2len x ≤ runlen s x) ∧ (∀ x, t.j2len x ≤ runlen s r) ∧
          t.j2len r = runlen s r) →
        ∀ j ∈ js₂,
        ((innerStep st.j2len r t j).besti = t2.besti ∧
          (innerStep st.j2len r t j).bestj = t2.bestj ∧
          (innerStep st.j2len r t j).bestsize = t2.bestsize ∧
          (∀ x, (innerStep st.j2len r t j).j2len x ≤ runlen s x) ∧
          (∀ x, (innerStep st.j2len r t j).j2len x ≤ runlen s r) ∧
          (innerStep st.j2len r t j).j2len r = runlen s r) := by
      intro t ht j hj
      obtain ⟨ht1, ht2, ht3, ht4, ht5, ht6⟩ := ht
      have hjr : r < j := hjs₂gt j hj
      have hjc : s.getD j ' ' = s.getD r ' ' := hjs₂c j hj
      have hjpop : popularChar s (s.getD j ' ') = false := by rw [hjc]; exact hpopf
      have hkj : (if j = 0 then 0 else st.j2len (j - 1)) + 1 ≤ runlen s j := by
        rw [if_neg (by omega : ¬(j = 0))]
        have h1 : st.j2len (j - 1) ≤ runlen s (j - 1) := hD3 _
        rw [runlen_succ (by omega) hjpop]
        omega
      have hkr : (if j = 0 then 0 else st.j2len (j - 1)) + 1 ≤ runlen s r := by
        rw [if_neg (by omega : ¬(j = 0))]
        have h1 : st.j2len (j - 1) ≤ (if r = 0 then 0 else runlen s (r - 1)) := hD6 _
        by_cases hr0 : r = 0
        · rw [if_pos hr0] at h1
          have := runlen_pos hpopf
          omega
        · rw [if_neg hr0] at h1
          rw [runlen_succ (by omega : 1 ≤ r) hpopf]
          omega
      have hno : ¬((if j = 0 then 0 else st.j2len (j - 1)) + 1 > t.bestsize) := by
        rw [ht3]
        omega
      simp only [innerStep]
      rw [if_neg hno]
      refine ⟨ht1, ht2, ht3, ?_, ?_, ?_⟩
      · intro x
        by_cases hx : x = j
        · subst hx; simp only [if_pos rfl]; exact hkj
        · simp only [if_neg hx]; exact ht4 x
      · intro x
        by_cases hx : x = j
        · subst hx; simp only [if_pos rfl]; exact hkr
        · simp only [if_neg hx]; exact ht5 x
      · simp only [if_neg (by omega : ¬(r = j))]
        exact ht6
    have hC := List.foldlRecOn js₂ (innerStep st.j2len r) t2
      (motive := fun t => t.besti = t2.besti ∧ t.bestj = t2.bestj ∧
        t.bestsize = t2.bestsize ∧ (∀ x, t.j2len x ≤ runlen s x) ∧
        (∀ x, t.j2len x ≤ runlen s r) ∧ t.j2len r = runlen s r)
      ⟨rfl, rfl, rfl, hB5, hB6, hB7⟩
      (fun t ht j hj => phaseC t ht j hj)
    obtain ⟨hC1, hC2, hC3, hC4, hC5, hC6⟩ := hC
    refine ⟨by rw [hC1, hC2, hB1], by rw [hC1, hC3]; omega, ?_, hC4, ?_, ?_⟩
    · intro j hj
      rcases Nat.lt_succ_iff_lt_or_eq.mp hj with hj2 | hj2
      · have := hD2 j hj2
        omega
      · subst hj2
        omega
    · intro x
      simp only [Nat.add_sub_cancel]
      rw [if_neg (by omega : ¬(r + 1 = 0))]
      exact hC5 x
    · intro _
      simp only [Nat.add_sub_cancel]
      exact hC6

theorem flmLoop_self_inv (s : List Char) :
    ∀ r, r ≤ s.length →
    DiagInv s r ((List.range' 0 r).foldl (rowStep s s 0 s.length)
      ⟨fun _ => 0, 0, 0, 0⟩) := by
  intro r
  induction r with
  | zero =>
    intro _
    exact ⟨rfl, Nat.le_refl 0, fun j hj => absurd hj (Nat.not_lt_zero j),
      fun j => Nat.zero_le _, fun j => Nat.zero_le _, fun h => absurd rfl h⟩
  | succ r ih =>
    intro hr
    rw [List.range'_concat]
    rw [List.foldl_append, List.foldl_cons, List.foldl_nil]
    have h0r : 0 + 1 * r = r := by omega
    rw [h0r]
    exact rowStep_self_inv s r (by omega) _ (ih (by omega))

theorem findLongestMatch_eq (a b : List Char) (alo ahi blo bhi : Nat) :
    findLongestMatch a b alo ahi blo bhi =
      ((extLeft a b alo blo (flmLoop a b alo ahi blo bhi).besti
          (flmLoop a b alo ahi blo bhi).bestj
          (flmLoop a b alo ahi blo bhi).bestsize).1,
        (extLeft a b alo blo (flmLoop a b alo ahi blo bhi).besti
          (flmLoop a b alo ahi blo bhi).bestj
          (flmLoop a b alo ahi blo bhi).bestsize).2.1,
        extRight a b ahi bhi
          (extLeft a b alo blo (flmLoop a b alo ahi blo bhi).besti
            (flmLoop a b alo ahi blo bhi).bestj
            (flmLoop a b alo ahi blo bhi).bestsize).1
          (extLeft a b alo blo (flmLoop a b alo ahi blo bhi).besti
            (flmLoop a b alo ahi blo bhi).bestj
            (flmLoop a b alo ahi blo bhi).bestsize).2.1
          (ahi -
            ((extLeft a b alo blo (flmLoop a b alo ahi blo bhi).besti
              (flmLoop a b alo ahi blo bhi).bestj
              (flmLoop a b alo ahi blo bhi).bestsize).1 +
            (extLeft a b alo blo (flmLoop a b alo ahi blo bhi).besti
              (flmLoop a b alo ahi blo bhi).bestj
              (flmLoop a b alo ahi blo bhi).bestsize).2.2))
          (extLeft a b alo blo (flmLoop a b alo ahi blo bhi).besti
            (flmLoop a b alo ahi blo bhi).bestj
            (flmLoop a b alo ahi blo bhi).bestsize).2.2) := rfl

theorem flmLoop_self_eq (s : List Char) :
    flmLoop s s 0 s.length 0 s.length =
      (List.range' 0 s.length).foldl (rowStep s s 0 s.length)
        ⟨fun _ => 0, 0, 0, 0⟩ := by
  unfold flmLoop
  simp only [Nat.sub_zero]

theorem findLongestMatch_self (s : List Char) :
    findLongestMatch s s 0 s.length 0 s.length = (0, 0, s.length) := by
  have hinv := flmLoop_self_inv s s.length (le_refl _)
  rw [← flmLoop_self_eq] at hinv
  obtain ⟨hD1, hD8, _, _, _, _⟩ := hinv
  set F := flmLoop s s 0 s.length 0 s.length with hF
  rw [findLongestMatch_eq, ← hD1, extLeft_self]
  show (0, 0, extRight s s s.length s.length 0 0
    (s.length - (0 + (F.bestsize + F.besti))) (F.bestsize + F.besti)) =
    (0, 0, s.length)
  rw [extRight_self s _ _ (by omega) (by omega)]

theorem findLongestMatch_empty (a b : List Char) (alo blo : Nat) :
    findLongestMatch a b alo alo blo blo = (alo, blo, 0) := by
  have hloop : flmLoop a b alo alo blo blo = ⟨fun _ => 0, alo, blo, 0⟩ := by
    unfold flmLoop
    simp only [Nat.sub_self]
    rw [show List.range' alo 0 = [] from rfl, List.foldl_nil]
  have hext : extLeft a b alo blo alo blo 0 = (alo, blo, 0) := by
    cases alo with
    | zero => rfl
    | succ m =>
      rw [extLeft]
      rw [if_neg (by rintro ⟨h1, h2, h3⟩; omega)]
  have hextr : extRight a b alo blo alo blo (alo - (alo + 0)) 0 = 0 := by
    rw [show alo - (alo + 0) = 0 from by omega]
    rfl
  rw [findLongestMatch_eq, hloop]
  show ((extLeft a b alo blo alo blo 0).1, (extLeft a b alo blo alo blo 0).2.1,
    extRight a b alo blo (extLeft a b alo blo alo blo 0).1
      (extLeft a b alo blo alo blo 0).2.1
      (alo - ((extLeft a b alo blo alo blo 0).1 + (extLeft a b alo blo alo blo 0).2.2))
      (extLeft a b alo blo alo blo 0).2.2) =
    (alo, blo, 0)
  rw [hext]
  show (alo, blo, extRight a b alo blo alo blo (alo - (alo + 0)) 0) = (alo, blo, 0)
  rw [hextr]

theorem matchTotal_empty (a b : List Char) (fuel alo blo : Nat) :
    matchTotal a b fuel alo alo blo blo = 0 := by
  cases fuel with
  | zero => rfl
  | succ fuel =>
    rw [matchTotal]
    rw [findLongestMatch_empty]
    simp

theorem matchTotal_self (s : List Char) (fuel : Nat) :
    matchTotal s s (fuel + 1) 0 s.length 0 s.length = s.length := by
  rw [matchTotal]
  rw [findLongestMatch_self]
  by_cases hn : s.length = 0
  · simp [hn]
  · simp only [hn, if_false]
    rw [Nat.zero_add, matchTotal_empty, matchTotal_empty]
    omega

theorem ratioQ_self (s : List Char) (h : s ≠ []) : ratioQ s s = 1 := by
  unfold ratioQ
  have hlen : 1 ≤ s.length := by
    cases s with
    | nil => exact absurd rfl h
    | cons c cs => simp
  rw [show s.length + s.length + 1 = (s.length + s.length) + 1 from rfl]
  rw [matchTotal_self s (s.length + s.length)]
  have hne : ((s.length : ℚ) + (s.length : ℚ)) ≠ 0 := by
    have : (0 : ℚ) < (s.length : ℚ) := by exact_mod_cast hlen
    linarith
  rw [div_eq_one_iff_eq hne]
  ring

theorem rowStep_valid (a b : List Char) (alo blo bhi R : Nat)
    (st : FlmState) (h : ValidInv a b alo blo bhi R st) :
    ValidInv a b alo blo bhi (R + 1) (rowStep a b blo bhi st R) := by
  obtain ⟨⟨hV1, hV2, hV3, hV4, hV5⟩, hW⟩ := h
  unfold rowStep
  have hjs : ∀ j ∈ (b2j b (a.getD R ' ')).filter
      (fun j => decide (blo ≤ j ∧ j < bhi)),
      blo ≤ j ∧ j < bhi ∧ b.getD j ' ' = a.getD R ' ' := by
    intro j hj
    have h1 := List.mem_filter.mp hj
    have h2 := mem_b2j h1.1
    have h3 := h1.2
    simp only [decide_eq_true_eq] at h3
    exact ⟨h3.1, h3.2, h2.2.1⟩
  have hstep : ∀ t : FlmState, ValidInv a b alo blo bhi (R + 1) t →
      ∀ j ∈ (b2j b (a.getD R ' ')).filter (fun j => decide (blo ≤ j ∧ j < bhi)),
      ValidInv a b alo blo bhi (R + 1) (innerStep st.j2len R t j) := by
    intro t ht j hj
    obtain ⟨⟨hT1, hT2, hT3, hT4, hT5⟩, hTW⟩ := ht
    obtain ⟨hjb, hjh, hjc⟩ := hjs j hj
    -- the new entry value and its validity
    set k := (if j = 0 then 0 else st.j2len (j - 1)) + 1 with hkdef
    have hksplit : k = 1 ∨ (1 ≤ j ∧ k = st.j2len (j - 1) + 1) := by
      rw [hkdef]
      by_cases hj0 : j = 0
      · rw [if_pos hj0]
        exact Or.inl rfl
      · rw [if_neg hj0]
        exact Or.inr ⟨by omega, rfl⟩
    have hE3 : k + blo ≤ j + 1 := by
      rcases hksplit with hk | ⟨hj1, hk⟩
      · omega
      · by_cases hv0 : 0 < st.j2len (j - 1)
        · have := (hW (j - 1) hv0).2.2.1
          omega
        · omega
    have hE4 : k + alo ≤ R + 1 := by
      rcases hksplit with hk | ⟨hj1, hk⟩
      · omega
      · by_cases hv0 : 0 < st.j2len (j - 1)
        · have := (hW (j - 1) hv0).2.2.2.1
          omega
        · omega
    have hE5 : ∀ u, u < k → a.getD (R - u) ' ' = b.getD (j - u) ' ' := by
      intro u hu
      cases u with
      | zero =>
        simpa using hjc.symm
      | succ u =>
        rcases hksplit with hk | ⟨hj1, hk⟩
        · omega
        · have hv0 : 0 < st.j2len (j - 1) := by omega
          have hmatch := (hW (j - 1) hv0).2.2.2.2 u (by omega)
          rw [show R - (u + 1) = R - 1 - u from by omega,
            show j - (u + 1) = j - 1 - u from by omega]
          exact hmatch
    have hkpos : 1 ≤ k := by rcases hksplit with hk | ⟨hj1, hk⟩ <;> omega
    -- the updated dict is valid either way
    have hdict : ∀ x, 0 < (fun x => if x = j then k else t.j2len x) x →
        blo ≤ x ∧ x < bhi ∧
        (fun x => if x = j then k else t.j2len x) x + blo ≤ x + 1 ∧
        (fun x => if x = j then k else t.j2len x) x + alo ≤ R + 1 ∧
        ∀ u, u < (fun x => if x = j then k else t.j2len x) x →
          a.getD (R + 1 - 1 - u) ' ' = b.getD (x - u) ' ' := by
      intro x hx
      by_cases hxj : x = j
      · subst hxj
        simp only [if_pos rfl] at hx ⊢
        refine ⟨hjb, hjh, hE3, hE4, ?_⟩
        intro u hu
        rw [show R + 1 - 1 - u = R - u from by omega]
        exact hE5 u hu
      · simp only [if_neg hxj] at hx ⊢
        exact hTW x hx
    simp only [innerStep]
    rw [← hkdef]
    by_cases hgt : k > t.bestsize
    · rw [if_pos hgt]
      refine ⟨⟨?_, ?_, ?_, ?_, ?_⟩, hdict⟩
      · show alo ≤ R + 1 - k
        omega
      · show blo ≤ j + 1 - k
        omega
      · show R + 1 - k + k ≤ R + 1
        omega
      · show j + 1 - k + k ≤ bhi
        omega
      · intro u hu
        show a.getD (R + 1 - k + u) ' ' = b.getD (j + 1 - k + u) ' '
        have hu2 : u < k := hu
        rw [show R + 1 - k + u = R - (k - 1 - u) from by omega,
          show j + 1 - k + u = j - (k - 1 - u) from by omega]
        exact hE5 (k - 1 - u) (by omega)
    · rw [if_neg hgt]
      exact ⟨⟨hT1, hT2, hT3, hT4, hT5⟩, hdict⟩
  refine List.foldlRecOn _ _ _ ?_ hstep
  refine ⟨⟨hV1, hV2, ?_, hV4, hV5⟩, ?_⟩
  · show st.besti + st.bestsize ≤ R + 1
    omega
  · intro j hj
    simp at hj

theorem flmLoop_valid (a b : List Char) (alo blo bhi : Nat) (hb : blo ≤ bhi) :
    ∀ m, ValidInv a b alo blo bhi (alo + m)
      ((List.range' alo m).foldl (rowStep a b blo bhi) ⟨fun _ => 0, alo, blo, 0⟩) := by
  intro m
  induction m with
  | zero =>
    refine ⟨⟨le_refl _, le_refl _, ?_, ?_, ?_⟩, ?_⟩
    · show alo + 0 ≤ alo + 0
      exact le_refl _
    · show blo + 0 ≤ bhi
      omega
    · intro t ht
      simp at ht
    · intro j hj
      simp at hj
  | succ m ih =>
    rw [List.range'_concat, List.foldl_append, List.foldl_cons, List.foldl_nil]
    have h1 : alo + 1 * m = alo + m := by omega
    rw [h1]
    have h2 := rowStep_valid a b alo blo bhi (alo + m) _ ih
    rw [show alo + m + 1 = alo + (m + 1) from by omega] at h2
    exact h2

theorem extLeft_valid (a b : List Char) (alo blo : Nat) :
    ∀ bi bj bs, alo ≤ bi → blo ≤ bj →
    (∀ t, t < bs → a.getD (bi + t) ' ' = b.getD (bj + t) ' ') →
    alo ≤ (extLeft a b alo blo bi bj bs).1 ∧
    blo ≤ (extLeft a b alo blo bi bj bs).2.1 ∧
    (extLeft a b alo blo bi bj bs).1 + (extLeft a b alo blo bi bj bs).2.2 = bi + bs ∧
    (extLeft a b alo blo bi bj bs).2.1 + (extLeft a b alo blo bi bj bs).2.2 = bj + bs ∧
    ∀ t, t < (extLeft a b alo blo bi bj bs).2.2 →
      a.getD ((extLeft a b alo blo bi bj bs).1 + t) ' ' =
        b.getD ((extLeft a b alo blo bi bj bs).2.1 + t) ' ' := by
  intro bi
  induction bi with
  | zero =>
    intro bj bs h1 h2 h3
    rw [extLeft]
    exact ⟨by omega, h2, rfl, rfl, h3⟩
  | succ bi ih =>
    intro bj bs h1 h2 h3
    by_cases hc : alo < bi + 1 ∧ blo < bj ∧
        a.getD bi ' ' = b.getD (bj - 1) ' '
    · rw [extLeft, if_pos hc]
      have hmatch : ∀ t, t < bs + 1 →
          a.getD (bi + t) ' ' = b.getD (bj - 1 + t) ' ' := by
        intro t ht
        cases t with
        | zero => simpa using hc.2.2
        | succ t =>
          rw [show bi + (t + 1) = bi + 1 + t from by omega,
            show bj - 1 + (t + 1) = bj + t from by omega]
          exact h3 t (by omega)
      have := ih (bj - 1) (bs + 1) (by omega) (by omega) hmatch
      refine ⟨this.1, this.2.1, ?_, ?_, this.2.2.2.2⟩
      · rw [this.2.2.1]
        omega
      · rw [this.2.2.2.1]
        omega
    · rw [extLeft, if_neg hc]
      exact ⟨h1, h2, rfl, rfl, h3⟩

theorem extRight_valid (a b : List Char) (ahi bhi bi bj : Nat) :
    ∀ fuel bs,
    bi + bs ≤ ahi → bj + bs ≤ bhi →
    (∀ t, t < bs → a.getD (bi + t) ' ' = b.getD (bj + t) ' ') →
    bi + extRight a b ahi bhi bi bj fuel bs ≤ ahi ∧
    bj + extRight a b ahi bhi bi bj fuel bs ≤ bhi ∧
    ∀ t, t < extRight a b ahi bhi bi bj fuel bs →
      a.getD (bi + t) ' ' = b.getD (bj + t) ' ' := by
  intro fuel
  induction fuel with
  | zero =>
    intro bs h1 h2 h3
    rw [extRight]
    exact ⟨h1, h2, h3⟩
  | succ fuel ih =>
    intro bs h1 h2 h3
    by_cases hc : bi + bs < ahi ∧ bj + bs < bhi ∧
        a.getD (bi + bs) ' ' = b.getD (bj + bs) ' '
    · rw [extRight, if_pos hc]
      refine ih (bs + 1) (by omega) (by omega) ?_
      intro t ht
      rcases Nat.lt_succ_iff_lt_or_eq.mp ht with ht2 | ht2
      · exact h3 t ht2
      · subst ht2
        exact hc.2.2
    · rw [extRight, if_neg hc]
      exact ⟨h1, h2, h3⟩

theorem findLongestMatch_valid (a b : List Char) (alo ahi blo bhi : Nat)
    (ha : alo ≤ ahi) (hb : blo ≤ bhi) :
    alo ≤ (findLongestMatch a b alo ahi blo bhi).1 ∧
    blo ≤ (findLongestMatch a b alo ahi blo bhi).2.1 ∧
    (findLongestMatch a b alo ahi blo bhi).1 +
      (findLongestMatch a b alo ahi blo bhi).2.2 ≤ ahi ∧
    (findLongestMatch a b alo ahi blo bhi).2.1 +
      (findLongestMatch a b alo ahi blo bhi).2.2 ≤ bhi ∧
    ∀ t, t < (findLongestMatch a b alo ahi blo bhi).2.2 →
      a.getD ((findLongestMatch a b alo ahi blo bhi).1 + t) ' ' =
        b.getD ((findLongestMatch a b alo ahi blo bhi).2.1 + t) ' ' := by
  have hloop := flmLoop_valid a b alo blo bhi hb (ahi - alo)
  rw [show alo + (ahi - alo) = ahi from by omega] at hloop
  have hfl : flmLoop a b alo ahi blo bhi =
      (List.range' alo (ahi - alo)).foldl (rowStep a b blo bhi)
        ⟨fun _ => 0, alo, blo, 0⟩ := rfl
  rw [← hfl] at hloop
  obtain ⟨⟨hV1, hV2, hV3, hV4, hV5⟩, _⟩ := hloop
  have hL := extLeft_valid a b alo blo (flmLoop a b alo ahi blo bhi).besti
    (flmLoop a b alo ahi blo bhi).bestj (flmLoop a b alo ahi blo bhi).bestsize
    hV1 hV2 hV5
  obtain ⟨hL1, hL2, hL3, hL4, hL5⟩ := hL
  have hR := extRight_valid a b ahi bhi
    (extLeft a b alo blo (flmLoop a b alo ahi blo bhi).besti
      (flmLoop a b alo ahi blo bhi).bestj (flmLoop a b alo ahi blo bhi).bestsize).1
    (extLeft a b alo blo (flmLoop a b alo ahi blo bhi).besti
      (flmLoop a b alo ahi blo bhi).bestj (flmLoop a b alo ahi blo bhi).bestsize).2.1
    (ahi -
      ((extLeft a b alo blo (flmLoop a b alo ahi blo bhi).besti
        (flmLoop a b alo ahi blo bhi).bestj
        (flmLoop a b alo ahi blo bhi).bestsize).1 +
      (extLeft a b alo blo (flmLoop a b alo ahi blo bhi).besti
        (flmLoop a b alo ahi blo bhi).bestj
        (flmLoop a b alo ahi blo bhi).bestsize).2.2))
    (extLeft a b alo blo (flmLoop a b alo ahi blo bhi).besti
      (flmLoop a b alo ahi blo bhi).bestj (flmLoop a b alo ahi blo bhi).bestsize).2.2
    (by omega) (by omega) hL5
  obtain ⟨hR1, hR2, hR3⟩ := hR
  rw [findLongestMatch_eq]
  exact ⟨hL1, hL2, hR1, hR2, hR3⟩

theorem matchTotal_le (a b : List Char) :
    ∀ fuel alo ahi blo bhi, alo ≤ ahi → blo ≤ bhi →
    matchTotal a b fuel alo ahi blo bhi ≤ min (ahi - alo) (bhi - blo) := by
  intro fuel
  induction fuel with
  | zero =>
    intro alo ahi blo bhi ha hb
    rw [matchTotal]
    exact Nat.zero_le _
  | succ fuel ih =>
    intro alo ahi blo bhi ha hb
    rw [matchTotal]
    have hv := findLongestMatch_valid a b alo ahi blo bhi ha hb
    rcases hflm : findLongestMatch a b alo ahi blo bhi with ⟨i, j, k⟩
    rw [hflm] at hv
    simp only at hv
    simp only [hflm]
    obtain ⟨hv1, hv2, hv3, hv4, hv5⟩ := hv
    by_cases hk : k = 0
    · rw [if_pos hk]
      exact Nat.zero_le _
    · rw [if_neg hk]
      have h1 := ih alo i blo j hv1 hv2
      have h2 := ih (i + k) ahi (j + k) bhi (by omega) (by omega)
      omega

theorem matchTotal_full (a b : List Char) :
    ∀ fuel alo ahi blo bhi, alo ≤ ahi → blo ≤ bhi →
    matchTotal a b fuel alo ahi blo bhi = ahi - alo →
    matchTotal a b fuel alo ahi blo bhi = bhi - blo →
    ∀ t, t < ahi - alo → a.getD (alo + t) ' ' = b.getD (blo + t) ' ' := by
  intro fuel
  induction fuel with
  | zero =>
    intro alo ahi blo bhi ha hb hM1 hM2 t ht
    rw [matchTotal] at hM1
    omega
  | succ fuel ih =>
    intro alo ahi blo bhi ha hb hM1 hM2 t ht
    rw [matchTotal] at hM1 hM2
    have hv := findLongestMatch_valid a b alo ahi blo bhi ha hb
    rcases hflm : findLongestMatch a b alo ahi blo bhi with ⟨i, j, k⟩
    rw [hflm] at hv hM1 hM2
    simp only at hv hM1 hM2
    obtain ⟨hv1, hv2, hv3, hv4, hv5⟩ := hv
    by_cases hk : k = 0
    · rw [if_pos hk] at hM1
      omega
    · rw [if_neg hk] at hM1 hM2
      have hle1 := matchTotal_le a b fuel alo i blo j hv1 hv2
      have hle2 := matchTotal_le a b fuel (i + k) ahi (j + k) bhi (by omega) (by omega)
      have e1a : matchTotal a b fuel alo i blo j = i - alo := by omega
      have e1b : matchTotal a b fuel alo i blo j = j - blo := by omega
      have e2a : matchTotal a b fuel (i + k) ahi (j + k) bhi = ahi - (i + k) := by omega
      have e2b : matchTotal a b fuel (i + k) ahi (j + k) bhi = bhi - (j + k) := by omega
      have hij : i - alo = j - blo := by omega
      have ihL := ih alo i blo j hv1 hv2 e1a e1b
      have ihR := ih (i + k) ahi (j + k) bhi (by omega) (by omega) e2a e2b
      by_cases ht1 : t < i - alo
      · exact ihL t ht1
      · by_cases ht2 : t < (i - alo) + k
        · have hoff : t - (i - alo) < k := by omega
          have hm := hv5 (t - (i - alo)) hoff
          rw [show alo + t = i + (t - (i - alo)) from by omega,
            show blo + t = j + (t - (i - alo)) from by omega]
          exact hm
        · have hoff : t - ((i - alo) + k) < ahi - (i + k) := by omega
          have hm := ihR (t - ((i - alo) + k)) hoff
          rw [show alo + t = i + k + (t - ((i - alo) + k)) from by omega,
            show blo + t = j + k + (t - ((i - alo) + k)) from by omega]
          exact hm

theorem ratioQ_eq_one (a b : List Char) (h : ratioQ a b = 1) : a = b := by
  by_cases h0 : a.length + b.length = 0
  · have ha : a = [] := List.length_eq_zero.mp (by omega)
    have hb : b = [] := List.length_eq_zero.mp (by omega)
    rw [ha, hb]
  · unfold ratioQ at h
    have hcast : ((a.length : ℚ) + (b.length : ℚ)) ≠ 0 := by
      have h1 : ((a.length : ℚ) + (b.length : ℚ)) = ((a.length + b.length : Nat) : ℚ) := by
        push_cast
        ring
      rw [h1]
      exact_mod_cast h0
    rw [div_eq_one_iff_eq hcast] at h
    have hN : 2 * matchTotal a b (a.length + b.length + 1) 0 a.length 0 b.length =
        a.length + b.length := by exact_mod_cast h
    have hle := matchTotal_le a b (a.length + b.length + 1) 0 a.length 0 b.length
      (Nat.zero_le _) (Nat.zero_le _)
    simp only [Nat.sub_zero] at hle
    have hMa : matchTotal a b (a.length + b.length + 1) 0 a.length 0 b.length =
        a.length - 0 := by omega
    have hMb : matchTotal a b (a.length + b.length + 1) 0 a.length 0 b.length =
        b.length - 0 := by omega
    have hfull := matchTotal_full a b (a.length + b.length + 1) 0 a.length 0 b.length
      (Nat.zero_le _) (Nat.zero_le _) hMa hMb
    have hlen : a.length = b.length := by omega
    apply List.ext_getElem hlen
    intro i h1 h2
    have hm := hfull i (by omega)
    rw [Nat.zero_add] at hm
    rw [List.getD_eq_getElem?_getD, List.getD_eq_getElem?_getD,
      List.getElem?_eq_getElem h1, List.getElem?_eq_getElem h2] at hm
    simpa using hm

theorem char_toNat_ofNat {n : Nat} (h : n.isValidChar) : (Char.ofNat n).toNat = n := by
  unfold Char.ofNat
  rw [dif_pos h]
  unfold Char.ofNatAux Char.toNat
  simp [UInt32.toNat, BitVec.toNat_ofNatLt]

theorem lowerChar_idem (c : Char) : lowerChar (lowerChar c) = lowerChar c := by
  unfold lowerChar
  by_cases h : 65 ≤ c.toNat ∧ c.toNat ≤ 90
  · rw [if_pos h]
    have hv : (c.toNat + 32).isValidChar := Or.inl (by omega)
    rw [if_neg (by rw [char_toNat_ofNat hv]; rintro ⟨h1, h2⟩; omega)]
  · rw [if_neg h, if_neg h]

theorem lowerStr_idem (s : List Char) : lowerStr (lowerStr s) = lowerStr s := by
  unfold lowerStr
  rw [List.map_map]
  apply List.map_congr_left
  intro c hc
  exact lowerChar_idem c

theorem lowerStr_length (s : List Char) : (lowerStr s).length = s.length := by
  unfold lowerStr
  exact List.length_map s lowerChar

/-- C2 counterexample: the scorers' text similarity is not symmetric
(`"wPQxRSzu"` vs `"yRSvuPQ"` gives 4/15 one way and 6/15 the other, matching
CPython's `difflib`), and the correction scorer does not lower-case: `"A"` and
`"a"` agree after lower-casing yet its similarity is not 1. -/
theorem C2_counterexample :
    calculate_similarity_dialogue "wPQxRSzu".data "yRSvuPQ".data ≠
      calculate_similarity_dialogue "yRSvuPQ".data "wPQxRSzu".data ∧
    lowerStr "A".data = lowerStr "a".data ∧
    calculate_similarity_correction "A".data "a".data ≠ 1 := by
  refine ⟨?_, by decide, ?_⟩
  · have hl1 : lowerStr "wPQxRSzu".data = "wpqxrszu".data := by decide
    have hl2 : lowerStr "yRSvuPQ".data = "yrsvupq".data := by decide
    have hlen1 : ("wpqxrszu".data).length = 8 := by decide
    have hlen2 : ("yrsvupq".data).length = 7 := by decide
    have hm1 : SeqMatcher.matchTotal "wpqxrszu".data "yrsvupq".data (8 + 7 + 1)
        0 8 0 7 = 2 := by decide
    have hm2 : SeqMatcher.matchTotal "yrsvupq".data "wpqxrszu".data (7 + 8 + 1)
        0 7 0 8 = 3 := by decide
    unfold calculate_similarity_dialogue SeqMatcher.ratioQ
    rw [if_neg (by decide), if_neg (by decide), hl1, hl2, hlen1, hlen2, hm1, hm2]
    norm_num
  · have hlen : ("A".data).length = 1 := by decide
    have hlen' : ("a".data).length = 1 := by decide
    have hm : SeqMatcher.matchTotal "A".data "a".data (1 + 1 + 1) 0 1 0 1 = 0 := by decide
    unfold calculate_similarity_correction SeqMatcher.ratioQ
    rw [if_neg (by decide), hlen, hlen', hm]
    norm_num

/-- C2 (amended): the dialogue/RAG/agent similarity returns exactly 1 iff the
two texts agree after lower-casing and is invariant to the case of either
input; the correction similarity returns exactly 1 iff the raw texts are
identical (it does not lower-case).  Symmetry does not hold for either. -/
theorem C2_similarity (t1 t2 : List Char) :
    (calculate_similarity_dialogue t1 t2 = 1 ↔ lowerStr t1 = lowerStr t2) ∧
    calculate_similarity_dialogue t1 t2 =
      calculate_similarity_dialogue (lowerStr t1) (lowerStr t2) ∧
    (calculate_similarity_correction t1 t2 = 1 ↔ t1 = t2) := by
  have hnil : lowerStr t1 = lowerStr t2 → lowerStr t2 = [] → t1 = t2 := by
    intro h hn
    have l1 : t1.length = 0 := by rw [← lowerStr_length t1, h, hn]; rfl
    have l2 : t2.length = 0 := by rw [← lowerStr_length t2, hn]; rfl
    rw [List.length_eq_zero.mp l1, List.length_eq_zero.mp l2]
  refine ⟨⟨?_, ?_⟩, ?_, ?_, ?_⟩
  · intro h
    by_cases he : t1 = t2
    · rw [he]
    · unfold calculate_similarity_dialogue at h
      rw [if_neg he] at h
      exact SeqMatcher.ratioQ_eq_one _ _ h
  · intro h
    unfold calculate_similarity_dialogue
    by_cases he : t1 = t2
    · rw [if_pos he]
    · rw [if_neg he, h]
      exact SeqMatcher.ratioQ_self _ (fun hn => he (hnil h hn))
  · unfold calculate_similarity_dialogue
    by_cases he : t1 = t2
    · rw [if_pos he, if_pos (by rw [he])]
    · rw [if_neg he]
      by_cases hl : lowerStr t1 = lowerStr t2
      · rw [if_pos hl, hl]
        exact SeqMatcher.ratioQ_self _ (fun hn => he (hnil hl hn))
      · rw [if_neg hl, lowerStr_idem, lowerStr_idem]
  · intro h
    by_cases he : t1 = t2
    · exact he
    · unfold calculate_similarity_correction at h
      rw [if_neg he] at h
      exact SeqMatcher.ratioQ_eq_one _ _ h
  · intro h
    unfold calculate_similarity_correction
    rw [if_pos h]
